import Mathlib

/-!
Verification of the use-case extraction and enrichment pipeline of this
repository (backend/utilities/use_case_utilities.py, llm_generation.py,
chunking_strategy.py, misc.py, backend/use_case/use_case_enrichment.py,
backend/managers/use_case_manager.py, backend/managers/parse_manager.py).

Modelling conventions:
* Python strings are modelled as `List Char` (`Str`).  The Python string
  methods used by the code (`strip`, `lower`, `split`, `find`, `rfind`,
  slicing, `replace`, concatenation) are implemented below with their
  CPython semantics restricted to ASCII text (the whitespace class `\s`
  and `str.lower` are modelled on the ASCII range; all concrete inputs
  appearing in theorems are ASCII).
* The regular expressions used by the estimator
  (`\b(?:can|should|must|may|will|shall)\s+VERB\b`, `\bVERB(?:s|ed|ing)?\b`,
  `re.split("[.!?]+", ...)`, `re.split(r"\band\b", ...)`,
  `\b(?:and|or)\b`, and the two bullet-line patterns) are implemented
  directly as decidable scanners over `List Char`, since a regex `search`
  is exactly an existential over match positions.
* External collaborators (the LLM pipeline call, `json.loads`, the
  sentence embedder and the free-form regex helpers of the enrichment
  module) are modelled as explicitly quantified oracles where noted.
* Python `int(x)` applied to the non-negative float products
  `u * 1.5`, `a * 0.8`, `s * 0.6` is modelled as the exact rational
  floors `3u/2`, `4a/5`, `3s/5`; `x * 1.5` is exact in binary floating
  point, and for the small counts involved the float products of `0.8`
  and `0.6` truncate to the same integers.
-/

set_option maxRecDepth 10000
set_option linter.unusedVariables false

abbrev Str := List Char

def S (s : String) : Str := s.data

/-- Python `str.lower` (ASCII model). -/
def pyLower (s : Str) : Str := s.map Char.toLower

/-- Python regex `\s` / `str.strip` whitespace class (ASCII model). -/
def isPySpace (c : Char) : Bool :=
  c = ' ' || c = '\t' || c = '\n' || c = '\r' || c = '\x0b' || c = '\x0c'

/-- Python `str.strip()`. -/
def pyStrip (s : Str) : Str :=
  ((s.dropWhile isPySpace).reverse.dropWhile isPySpace).reverse

/-- `isPrefOf p q` = `q` starts with `p`. -/
def isPrefOf : Str → Str → Bool
  | [], _ => true
  | _ :: _, [] => false
  | a :: as, b :: bs => a = b && isPrefOf as bs

/-- Python substring test `p in t`. -/
def hasSub (p t : Str) : Bool :=
  (List.range (t.length + 1)).any fun i => isPrefOf p (t.drop i)

/-- Python regex word character `\w` (ASCII model). -/
def isWordChar (c : Char) : Bool := c.isAlphanum || c = '_'

/-- `\b` holds just before position `i` of `t`, for a pattern whose first
character is a word character: the previous character (if any) is not a
word character. -/
def boundaryBefore (t : Str) (i : Nat) : Bool :=
  i = 0 || !(isWordChar (t.getD (i - 1) ' '))

/-- `\b` holds just after position `j` (exclusive) of `t`, for a pattern
whose last character is a word character: the character at `j` (if any)
is not a word character. -/
def boundaryAfter (t : Str) (j : Nat) : Bool :=
  t.length ≤ j || !(isWordChar (t.getD j ' '))

/-- A whole-word occurrence of `pat` at position `i` of `t`
(the regex `\b pat \b` matched at `i`). -/
def wordAt (t pat : Str) (i : Nat) : Bool :=
  boundaryBefore t i && (isPrefOf pat (t.drop i) && boundaryAfter t (i + pat.length))

/-- Search success of the regex `\bVERB(?:s|ed|ing)?\b` on `t`. -/
def suffixSearch (t verb : Str) : Bool :=
  (List.range (t.length + 1)).any fun i =>
    boundaryBefore t i &&
      (isPrefOf verb (t.drop i) &&
        (boundaryAfter t (i + verb.length) ||
          [S "s", S "ed", S "ing"].any fun suf =>
            isPrefOf suf (t.drop (i + verb.length)) &&
              boundaryAfter t (i + verb.length + suf.length)))

/-- Search success of the regex `\b(?:can|should|must|may|will|shall)\s+VERB\b`
on `t`.  Since every verb in the vocabulary begins with a letter, the greedy
`\s+` run can only be the full whitespace run following the modal. -/
def modalSearch (t verb : Str) : Bool :=
  (List.range (t.length + 1)).any fun i =>
    [S "can", S "should", S "must", S "may", S "will", S "shall"].any fun modal =>
      boundaryBefore t i &&
        (isPrefOf modal (t.drop i) &&
          (let rest := t.drop (i + modal.length)
           let sp := (rest.takeWhile isPySpace).length
           decide (1 ≤ sp) &&
             (isPrefOf verb (rest.drop sp) &&
               boundaryAfter t (i + modal.length + sp + verb.length))))

/-- Split `t` at every character satisfying `sep` (single-character
fields of `re.split` on a character class; empty fields retained). -/
def splitIf (sep : Char → Bool) (t : Str) : List Str :=
  t.foldr
    (fun c acc =>
      if sep c then [] :: acc
      else
        match acc with
        | h :: r => (c :: h) :: r
        | [] => [[c]])
    [[]]

/-- All whole-word match positions of `pat` in `t`, ascending. -/
def wordPositions (t pat : Str) : List Nat :=
  (List.range (t.length + 1)).filter fun i => wordAt t pat i

/-- Split `t` at the (pairwise disjoint, ascending) match spans
`[p, p + w)` for `p ∈ ps`, as `re.split` does; `off` is the index of
the first character of `t` in the original text. -/
def splitAtPositions (t : Str) (w off : Nat) : List Nat → List Str
  | [] => [t]
  | p :: ps =>
      t.take (p - off) :: splitAtPositions (t.drop (p - off + w)) w (p + w) ps

/-- `re.split(r"\band\b", t)`. -/
def splitAnd (t : Str) : List Str :=
  splitAtPositions t 3 0 (wordPositions t (S "and"))

/-- The action-verb vocabulary (`utilities/key_values.py`; the module body
is not under `src/`, but `backend/main.py` carries the identical inline
list `UseCaseEstimator.ACTION_VERBS`, reproduced here). -/
def ACTION_VERBS : List Str :=
  [S "login", S "logout", S "register", S "sign in", S "sign up", S "authenticate",
   S "search", S "find", S "browse", S "filter", S "sort",
   S "view", S "display", S "show",
   S "add", S "create", S "insert", S "new", S "submit", S "post",
   S "edit", S "update", S "modify", S "change", S "revise", S "adjust",
   S "delete", S "remove", S "cancel", S "clear", S "erase",
   S "download", S "upload", S "export", S "import", S "backup", S "back up",
   S "purchase", S "buy", S "checkout", S "pay", S "order",
   S "track", S "monitor", S "review", S "rate", S "comment",
   S "approve", S "reject", S "verify", S "validate", S "check",
   S "send", S "receive", S "share", S "notify", S "alert",
   S "configure", S "customize", S "manage", S "administer", S "control",
   S "select", S "choose", S "pick", S "click", S "tap",
   S "message", S "chat", S "call", S "dial",
   S "connect", S "sync", S "synchronize", S "refresh", S "reload",
   S "flag", S "report", S "block", S "mute", S "unmute",
   S "enable", S "disable", S "toggle", S "switch", S "turn on", S "turn off",
   S "queue", S "handle", S "process", S "forward",
   S "encrypt", S "decrypt", S "protect", S "secure",
   S "log", S "record", S "store", S "save", S "cache"]

/-- The actor vocabulary (same provenance as `ACTION_VERBS`). -/
def ACTORS : List Str :=
  [S "user", S "customer", S "admin", S "administrator", S "manager",
   S "employee", S "staff", S "member", S "visitor", S "guest",
   S "buyer", S "seller", S "vendor", S "supplier",
   S "student", S "teacher", S "instructor",
   S "patient", S "doctor", S "nurse",
   S "system", S "application", S "platform"]

/-- `UseCaseEstimator.count_conjunction_actions`. -/
def count_conjunction_actions (text : Str) : Nat :=
  let text_lower := pyLower text
  let and_splits := splitAnd text_lower
  let compound_action_count :=
    if 2 ≤ and_splits.length then
      (and_splits.filter fun sp => ACTION_VERBS.any fun verb => hasSub verb sp).length
    else 0
  max 1 compound_action_count

/-- The sentence list of `estimate_use_cases`:
`[s.strip() for s in re.split(r"[.!?]+", text) if s.strip()]`
(splitting on single separator characters instead of runs only adds empty
fields, which the filter removes). -/
def estSentences (text : Str) : List Str :=
  ((splitIf (fun c => c = '.' || c = '!' || c = '?') text).map pyStrip).filter
    fun s => !s.isEmpty

/-- A line matches `^\s*[-*•]\s+` or `^\s*\d+\.\s+`. -/
def bulletLine (line : Str) : Bool :=
  let r := line.dropWhile isPySpace
  (match r with
   | c :: d :: _ => (c = '-' || c = '*' || c = '•') && isPySpace d
   | _ => false) ||
  (let ds := r.takeWhile Char.isDigit
   let r2 := r.drop ds.length
   !ds.isEmpty &&
     match r2 with
     | c :: d :: _ => c = '.' && isPySpace d
     | _ => false)

/-- The fields of `UseCaseEstimator.estimate_use_cases` used downstream. -/
structure EstimateResult where
  char_count : Nat
  sentence_count : Nat
  action_count : Nat
  unique_actions : Nat
  conjunction_action_count : Nat
  actor_count : Nat
  conjunction_splits : Nat
  list_items : Nat
  sentences_with_actions : Nat
  estimates : List Nat
  min_estimate : Nat
  max_estimate : Nat

/-- `min` of a nonempty list, Python `min(list)` (the `[]` case is
unreachable at the call site: `estimates` always ends with the
char-count heuristic). -/
def minL : List Nat → Nat
  | [] => 1
  | h :: t => t.foldl min h

/-- `max` of a nonempty list, Python `max(list)`. -/
def maxL : List Nat → Nat
  | [] => 3
  | h :: t => t.foldl max h

/-- Verbs found by the two regex patterns of `estimate_use_cases`
(`found_actions` in source order, `action_count` = its length). -/
def estFound (text : Str) : List Str :=
  ACTION_VERBS.filter fun verb =>
    modalSearch (pyLower text) verb || suffixSearch (pyLower text) verb

/-- `list_items` of `estimate_use_cases`. -/
def estListItems (text : Str) : Nat :=
  ((splitIf (fun c => c = '\n') text).filter bulletLine).length

/-- `sentences_with_actions` of `estimate_use_cases`. -/
def estSWA (text : Str) : Nat :=
  (estSentences text |>.filter fun sentence =>
    (ACTION_VERBS.any fun verb => hasSub verb (pyLower sentence)) ||
      (ACTORS.any fun actor => hasSub actor (pyLower sentence))).length

/-- The `estimates` list of `estimate_use_cases` (heuristics 1-4 in
source order). -/
def estEstimates (text : Str) : List Nat :=
  let char_count := text.length
  let action_count := (estFound text).length
  let unique_actions := (estFound text).eraseDups.length
  let conjunction_action_count := count_conjunction_actions text
  let e1 : List Nat :=
    if 0 < action_count then
      [if char_count < 150 ∧ unique_actions < conjunction_action_count then
         conjunction_action_count
       else if char_count < 100 then unique_actions
       else min (3 * unique_actions / 2) (4 * action_count / 5)]
    else []
  let e2 : List Nat := if 0 < estListItems text then [estListItems text] else []
  let e3 : List Nat :=
    if 0 < estSWA text then [3 * estSWA text / 5] else []
  let e4 : Nat := max 1 (char_count / 150)
  e1 ++ e2 ++ e3 ++ [e4]

/-- The size-based adjustment of `max_estimate` at the end of
`estimate_use_cases`. -/
def sizeCappedMax (char_count mx : Nat) : Nat :=
  if char_count < 100 then min mx 2
  else if char_count < 500 then min mx 5
  else mx

/-- `UseCaseEstimator.estimate_use_cases`. -/
def estimate_use_cases (text : Str) : EstimateResult :=
  let text_lower := pyLower text
  { char_count := text.length
    sentence_count := (estSentences text).length
    action_count := (estFound text).length
    unique_actions := (estFound text).eraseDups.length
    conjunction_action_count := count_conjunction_actions text
    actor_count := (ACTORS.filter fun actor => hasSub actor text_lower).length
    conjunction_splits :=
      ((List.range (text_lower.length + 1)).filter fun i =>
        wordAt text_lower (S "and") i || wordAt text_lower (S "or") i).length
    list_items := estListItems text
    sentences_with_actions := estSWA text
    estimates := estEstimates text
    min_estimate := max 1 (minL (estEstimates text))
    max_estimate := sizeCappedMax text.length (min 20 (maxL (estEstimates text))) }

/-- First stage of `get_smart_max_use_cases`: the "improved logic"
if/elif chain choosing the base value of `smart_max`. -/
def smartS1 (cc u conj mn mx : Nat) : Nat :=
  if cc < 150 ∧ 2 ≤ conj then conj
  else if 2000 < cc then mx
  else if 0 < u then min (3 * u / 2) mx
  else mn

/-- Second stage: the size-based caps applied to `smart_max`. -/
def smartS2 (cc conj s1 : Nat) : Nat :=
  if cc < 150 ∧ 2 ≤ conj then max s1 conj
  else if cc < 100 then min s1 2
  else if cc < 500 then min s1 5
  else if cc < 2000 then min s1 10
  else min s1 20

/-- Third stage: the adaptive minimum based on text size and action count. -/
def smartS3 (cc u s2 : Nat) : Nat :=
  if cc < 50 ∧ u ≤ 1 then max 1 s2
  else if cc < 200 then max 1 s2
  else max 2 s2

/-- The arithmetic tail of `get_smart_max_use_cases`, from the raw
estimate statistics to the returned count (ending in the `min _ 20`
absolute ceiling). -/
def smartFromStats (cc u conj mn mx : Nat) : Nat :=
  min (smartS3 cc u (smartS2 cc conj (smartS1 cc u conj mn mx))) 20

/-- `get_smart_max_use_cases` (backend/utilities/use_case_utilities.py). -/
def get_smart_max_use_cases (text : Str) : Nat :=
  let r := estimate_use_cases text
  smartFromStats r.char_count r.unique_actions r.conjunction_action_count
    r.min_estimate r.max_estimate

/-- `get_smart_token_budget` (backend/utilities/use_case_utilities.py);
the `text` argument is only printed by the source. -/
def get_smart_token_budget (text : Str) (estimated_use_cases : Int) : Int :=
  let base_tokens := estimated_use_cases * 120
  let overhead : Int := 80
  let token_budget := base_tokens + overhead
  max 300 (min token_budget 1200)

/-! ### Generic facts about `minL`, `maxL` -/

lemma foldl_min_le_init (l : List Nat) (a : Nat) : l.foldl min a ≤ a := by
  induction l generalizing a with
  | nil => exact Nat.le_refl a
  | cons h t ih => exact Nat.le_trans (ih (min a h)) (Nat.min_le_left a h)

lemma foldl_min_le_mem (l : List Nat) : ∀ (a x : Nat), x ∈ l → l.foldl min a ≤ x := by
  induction l with
  | nil => intro a x hx; cases hx
  | cons b t ih =>
    intro a x hx
    rcases List.mem_cons.mp hx with h1 | h2
    · subst h1
      exact Nat.le_trans (foldl_min_le_init t (min a x)) (Nat.min_le_right a x)
    · exact ih (min a b) x h2

lemma minL_le_of_mem (l : List Nat) (x : Nat) (hx : x ∈ l) : minL l ≤ x := by
  cases l with
  | nil => cases hx
  | cons b t =>
    rcases List.mem_cons.mp hx with h1 | h2
    · subst h1; exact foldl_min_le_init t x
    · exact foldl_min_le_mem t b x h2

lemma init_le_foldl_max (l : List Nat) (a : Nat) : a ≤ l.foldl max a := by
  induction l generalizing a with
  | nil => exact Nat.le_refl a
  | cons b t ih => exact Nat.le_trans (Nat.le_max_left a b) (ih (max a b))

lemma mem_le_foldl_max (l : List Nat) : ∀ (a x : Nat), x ∈ l → x ≤ l.foldl max a := by
  induction l with
  | nil => intro a x hx; cases hx
  | cons b t ih =>
    intro a x hx
    rcases List.mem_cons.mp hx with h1 | h2
    · subst h1
      exact Nat.le_trans (Nat.le_max_right a x) (init_le_foldl_max t (max a x))
    · exact ih (max a b) x h2

lemma le_maxL_of_mem (l : List Nat) (x : Nat) (hx : x ∈ l) : x ≤ maxL l := by
  cases l with
  | nil => cases hx
  | cons b t =>
    rcases List.mem_cons.mp hx with h1 | h2
    · subst h1; exact init_le_foldl_max t x
    · exact mem_le_foldl_max t b x h2

/-! ### Bounds of the estimator -/

lemma e4_mem_estEstimates (text : Str) :
    max 1 (text.length / 150) ∈ estEstimates text := by
  unfold estEstimates
  simp [List.mem_append]

lemma one_le_min_estimate (text : Str) :
    1 ≤ (estimate_use_cases text).min_estimate := by
  show 1 ≤ max 1 (minL (estEstimates text))
  omega

lemma min_estimate_le (text : Str) :
    (estimate_use_cases text).min_estimate ≤ max 1 (text.length / 150) := by
  show max 1 (minL (estEstimates text)) ≤ max 1 (text.length / 150)
  have h := minL_le_of_mem _ _ (e4_mem_estEstimates text)
  omega

lemma le_max_estimate_raw (text : Str) :
    max 1 (text.length / 150) ≤ maxL (estEstimates text) :=
  le_maxL_of_mem _ _ (e4_mem_estEstimates text)

lemma max_estimate_bounds (text : Str) :
    1 ≤ (estimate_use_cases text).max_estimate ∧
      (estimate_use_cases text).max_estimate ≤ 20 := by
  show 1 ≤ sizeCappedMax text.length (min 20 (maxL (estEstimates text))) ∧
    sizeCappedMax text.length (min 20 (maxL (estEstimates text))) ≤ 20
  have h := le_max_estimate_raw text
  unfold sizeCappedMax
  split <;> [skip; split] <;> omega

lemma smartS1_pos (cc u conj mn mx : Nat) (hmn : 1 ≤ mn) (hmx : 1 ≤ mx) :
    1 ≤ smartS1 cc u conj mn mx := by
  unfold smartS1
  repeat' split
  all_goals omega

lemma smartS2_pos (cc conj s1 : Nat) (hs : 1 ≤ s1) : 1 ≤ smartS2 cc conj s1 := by
  unfold smartS2
  repeat' split
  all_goals omega

lemma smartS3_pos (cc u s2 : Nat) : 1 ≤ smartS3 cc u s2 := by
  unfold smartS3
  repeat' split
  all_goals omega

lemma smartFromStats_bounds (cc u conj mn mx : Nat) (hmn : 1 ≤ mn) (hmx : 1 ≤ mx) :
    1 ≤ smartFromStats cc u conj mn mx ∧ smartFromStats cc u conj mn mx ≤ 20 := by
  have h3 := smartS3_pos cc u (smartS2 cc conj (smartS1 cc u conj mn mx))
  unfold smartFromStats
  omega

lemma smartS2_caps (cc conj s1 : Nat) (h : ¬(cc < 150 ∧ 2 ≤ conj)) :
    (cc < 100 → smartS2 cc conj s1 ≤ 2) ∧
    (cc < 500 → smartS2 cc conj s1 ≤ 5) ∧
    (cc < 2000 → smartS2 cc conj s1 ≤ 10) := by
  unfold smartS2
  repeat' split
  all_goals omega

lemma smartS3_le (cc u s2 : Nat) (h2 : 2 ≤ s2) : smartS3 cc u s2 ≤ s2 := by
  unfold smartS3
  repeat' split
  all_goals omega

lemma smartFromStats_caps (cc u conj mn mx : Nat)
    (h : ¬(cc < 150 ∧ 2 ≤ conj)) :
    (cc < 100 → smartFromStats cc u conj mn mx ≤ 2) ∧
    (cc < 500 → smartFromStats cc u conj mn mx ≤ 5) ∧
    (cc < 2000 → smartFromStats cc u conj mn mx ≤ 10) ∧
    smartFromStats cc u conj mn mx ≤ 20 := by
  have h2 := smartS2_caps cc conj (smartS1 cc u conj mn mx) h
  unfold smartFromStats smartS3
  repeat' split
  all_goals omega

/--
C6: for every string `text`, `get_smart_max_use_cases text` terminates
without raising (it is a total function of the text) and returns an
integer `n` with `1 ≤ n ≤ 20`; on the empty string it returns the floor
estimate `1`.
-/
theorem C6_smart_max_bounded_and_empty_floor :
    (∀ text : Str,
      1 ≤ get_smart_max_use_cases text ∧ get_smart_max_use_cases text ≤ 20) ∧
    get_smart_max_use_cases (S "") = 1 := by
  refine ⟨fun text => ?_, by decide⟩
  exact smartFromStats_bounds _ _ _ _ _ (one_le_min_estimate text)
    (max_estimate_bounds text).1

/--
C7 (amended): the final size-tiered cap of `get_smart_max_use_cases`
(≤ 2 under 100 characters, ≤ 5 under 500, ≤ 10 under 2000, ≤ 20
otherwise) holds whenever the compound-conjunction override is not
taken, i.e. whenever the text is not both shorter than 150 characters
and detected to contain at least 2 compound "and"-separated actions;
the absolute ceiling of 20 holds for every text.
-/
theorem C7_size_tiered_cap_outside_compound_override (text : Str)
    (h : ¬(text.length < 150 ∧ 2 ≤ count_conjunction_actions text)) :
    (text.length < 100 → get_smart_max_use_cases text ≤ 2) ∧
    (text.length < 500 → get_smart_max_use_cases text ≤ 5) ∧
    (text.length < 2000 → get_smart_max_use_cases text ≤ 10) ∧
    get_smart_max_use_cases text ≤ 20 := by
  exact smartFromStats_caps _ _ _ _ _ h

/--
C7 (counterexample): the 23-character text "add and delete and edit"
is under 100 characters, yet `get_smart_max_use_cases` returns 3 > 2:
the compound-conjunction branch (`char_count < 150 and
conjunction_actions >= 2`) bypasses the `≤ 2` size cap.
-/
theorem C7_counterexample :
    (S "add and delete and edit").length < 100 ∧
    get_smart_max_use_cases (S "add and delete and edit") = 3 ∧
    ¬ get_smart_max_use_cases (S "add and delete and edit") ≤ 2 := by
  refine ⟨by decide, by decide, ?_⟩
  have h : get_smart_max_use_cases (S "add and delete and edit") = 3 := by decide
  omega

/-- Witness for C7: the short single-action text "User can login." does
not trigger the compound override, and the `≤ 2` cap indeed holds there. -/
theorem C7_witness :
    ¬((S "User can login.").length < 150 ∧
        2 ≤ count_conjunction_actions (S "User can login.")) ∧
    get_smart_max_use_cases (S "User can login.") ≤ 2 := by
  refine ⟨by decide, ?_⟩
  exact (C7_size_tiered_cap_outside_compound_override (S "User can login.")
    (by decide)).1 (by decide)

/-- The clamp operation named by the specification. -/
def clampSpec (x lo hi : Int) : Int := max lo (min x hi)

/--
C8: for every text and every integer `n ≥ 1`, `get_smart_token_budget
text n` equals `clamp (n*120+80) 300 1200`, lies in `[300, 1200]`, and
is non-decreasing in `n` for fixed text.
-/
theorem C8_token_budget_clamped_monotone (text : Str) (n : Int) (hn : 1 ≤ n) :
    get_smart_token_budget text n = clampSpec (n * 120 + 80) 300 1200 ∧
    300 ≤ get_smart_token_budget text n ∧
    get_smart_token_budget text n ≤ 1200 ∧
    ∀ m : Int, n ≤ m →
      get_smart_token_budget text n ≤ get_smart_token_budget text m := by
  refine ⟨by simp only [get_smart_token_budget, clampSpec], ?_, ?_, fun m hm => ?_⟩
  all_goals simp only [get_smart_token_budget]
  all_goals omega

/-- Witness for C8 at `n = 3`. -/
theorem C8_witness :
    get_smart_token_budget (S "") 3 = clampSpec (3 * 120 + 80) 300 1200 ∧
    get_smart_token_budget (S "") 3 = 440 :=
  ⟨(C8_token_budget_clamped_monotone (S "") 3 (by decide)).1, by decide⟩

/-! ### C10: `estimate_use_cases` bounds and the all-'z' counterexample -/

lemma min_estimate_eq (text : Str) :
    (estimate_use_cases text).min_estimate = max 1 (minL (estEstimates text)) := rfl

lemma max_estimate_eq (text : Str) :
    (estimate_use_cases text).max_estimate =
      sizeCappedMax text.length (min 20 (maxL (estEstimates text))) := rfl

/--
C10 (amended): for every string, `estimate_use_cases` returns
`1 ≤ min_estimate`, `1 ≤ max_estimate ≤ 20`, and `min_estimate ≤
max_estimate` holds whenever the text has fewer than 3150 characters
(on longer texts whose only heuristic estimate is the character-count
floor, `min_estimate` can exceed the 20-capped `max_estimate`).
-/
theorem C10_estimate_pair_bounds (text : Str) :
    1 ≤ (estimate_use_cases text).min_estimate ∧
    1 ≤ (estimate_use_cases text).max_estimate ∧
    (estimate_use_cases text).max_estimate ≤ 20 ∧
    (text.length < 3150 →
      (estimate_use_cases text).min_estimate ≤
        (estimate_use_cases text).max_estimate) := by
  have hb := max_estimate_bounds text
  refine ⟨one_le_min_estimate text, hb.1, hb.2, fun hlen => ?_⟩
  have h2 := minL_le_of_mem _ _ (e4_mem_estEstimates text)
  have h3 := le_maxL_of_mem _ _ (e4_mem_estEstimates text)
  rw [min_estimate_eq, max_estimate_eq]
  unfold sizeCappedMax
  split
  · omega
  · split
    all_goals omega

/-- Witness for C10 on the empty string. -/
theorem C10_witness :
    (estimate_use_cases (S "")).min_estimate ≤
      (estimate_use_cases (S "")).max_estimate :=
  (C10_estimate_pair_bounds (S "")).2.2.2 (by decide)

lemma list_any_false {α : Type} (l : List α) (p : α → Bool)
    (h : ∀ x ∈ l, p x = false) : l.any p = false := by
  induction l with
  | nil => rfl
  | cons a t ih =>
    simp only [List.any_cons, Bool.or_eq_false_iff]
    exact ⟨h a (List.mem_cons_self a t), ih fun x hx => h x (List.mem_cons_of_mem a hx)⟩

lemma isPrefOf_rep_false :
    ∀ p : Str, p.any (fun c => decide (c ≠ 'z')) = true →
      ∀ n, isPrefOf p (List.replicate n 'z') = false := by
  intro p
  induction p with
  | nil => intro hp; simp at hp
  | cons a q ih =>
    intro hp n
    cases n with
    | zero => rfl
    | succ m =>
      simp only [List.replicate_succ, isPrefOf]
      simp only [List.any_cons, Bool.or_eq_true, decide_eq_true_eq] at hp
      rcases hp with h | h
      · simp [h]
      · simp [ih h m]

lemma drop_rep (n i : Nat) :
    (List.replicate n 'z').drop i = List.replicate (n - i) 'z' := by
  rw [List.drop_replicate]

lemma hasSub_rep_false (v : Str) (hv : v.any (fun c => decide (c ≠ 'z')) = true)
    (n : Nat) : hasSub v (List.replicate n 'z') = false := by
  unfold hasSub
  apply list_any_false
  intro i hi
  rw [drop_rep]
  exact isPrefOf_rep_false v hv _

lemma suffixSearch_rep_false (v : Str)
    (hv : v.any (fun c => decide (c ≠ 'z')) = true) (n : Nat) :
    suffixSearch (List.replicate n 'z') v = false := by
  unfold suffixSearch
  apply list_any_false
  intro i hi
  rw [drop_rep, isPrefOf_rep_false v hv]
  simp

lemma modalSearch_rep_false (v : Str) (n : Nat) :
    modalSearch (List.replicate n 'z') v = false := by
  unfold modalSearch
  apply list_any_false
  intro i hi
  apply list_any_false
  intro modal hmodal
  have hm : modal.any (fun c => decide (c ≠ 'z')) = true := by
    fin_cases hmodal <;> decide
  rw [drop_rep, isPrefOf_rep_false modal hm]
  simp

lemma wordPositions_and_rep (n : Nat) :
    wordPositions (List.replicate n 'z') (S "and") = [] := by
  unfold wordPositions
  apply List.filter_eq_nil_iff.mpr
  intro i hi
  unfold wordAt
  rw [drop_rep, isPrefOf_rep_false (S "and") (by decide)]
  simp

lemma pyLower_rep (n : Nat) :
    pyLower (List.replicate n 'z') = List.replicate n 'z' := by
  unfold pyLower
  rw [List.map_replicate]
  rfl

lemma splitAnd_rep (n : Nat) :
    splitAnd (List.replicate n 'z') = [List.replicate n 'z'] := by
  unfold splitAnd
  rw [wordPositions_and_rep]
  rfl

lemma conj_actions_rep (n : Nat) :
    count_conjunction_actions (List.replicate n 'z') = 1 := by
  simp only [count_conjunction_actions, pyLower_rep, splitAnd_rep]
  rfl

lemma splitIf_no_sep (sep : Char → Bool) :
    ∀ t : Str, (∀ c ∈ t, sep c = false) → splitIf sep t = [t] := by
  intro t
  induction t with
  | nil => intro _; rfl
  | cons a q ih =>
    intro h
    have hq := ih fun c hc => h c (List.mem_cons_of_mem a hc)
    have ha := h a (List.mem_cons_self a q)
    simp only [splitIf, List.foldr_cons] at *
    rw [hq, ha]
    rfl

lemma dropWhile_rep (p : Char → Bool) (hp : p 'z' = false) (n : Nat) :
    List.dropWhile p (List.replicate n 'z') = List.replicate n 'z' := by
  cases n with
  | zero => rfl
  | succ m => simp [List.replicate_succ, List.dropWhile_cons, hp]

lemma pyStrip_rep (n : Nat) :
    pyStrip (List.replicate n 'z') = List.replicate n 'z' := by
  unfold pyStrip
  rw [dropWhile_rep isPySpace (by decide), List.reverse_replicate,
    dropWhile_rep isPySpace (by decide), List.reverse_replicate]

lemma rep_sep_false (n : Nat) (sep : Char → Bool) (hz : sep 'z' = false) :
    ∀ c ∈ List.replicate n 'z', sep c = false := by
  intro c hc
  rw [List.eq_of_mem_replicate hc]
  exact hz

lemma rep3200_ne_nil : (List.replicate 3200 'z').isEmpty = false := by
  rw [show (3200 : Nat) = 3199 + 1 from rfl, List.replicate_succ]
  rfl

lemma filter_single_of_false {α : Type} (p : α → Bool) (a : α) (h : p a = false) :
    List.filter p [a] = [] := by
  simp [List.filter_cons, h]

lemma filter_single_of_true {α : Type} (p : α → Bool) (a : α) (h : p a = true) :
    List.filter p [a] = [a] := by
  simp [List.filter_cons, h]

lemma estSentences_rep3200 :
    estSentences (List.replicate 3200 'z') = [List.replicate 3200 'z'] := by
  unfold estSentences
  rw [splitIf_no_sep _ _ (rep_sep_false 3200 _ (by decide))]
  rw [List.map_cons, List.map_nil, pyStrip_rep]
  apply filter_single_of_true
  rw [rep3200_ne_nil]
  rfl

lemma verbs_have_non_z :
    ∀ v ∈ ACTION_VERBS, v.any (fun c => decide (c ≠ 'z')) = true := by
  decide

lemma actors_have_non_z :
    ∀ a ∈ ACTORS, a.any (fun c => decide (c ≠ 'z')) = true := by
  decide

lemma estFound_rep3200 : estFound (List.replicate 3200 'z') = [] := by
  unfold estFound
  apply List.filter_eq_nil_iff.mpr
  intro v hv
  rw [pyLower_rep, modalSearch_rep_false, suffixSearch_rep_false v (verbs_have_non_z v hv)]
  simp

lemma bulletLine_zz (rest : Str) : bulletLine ('z' :: 'z' :: rest) = false := rfl

lemma rep3200_cons :
    List.replicate 3200 'z' = 'z' :: 'z' :: List.replicate 3198 'z' := by
  rw [show (3200 : Nat) = 3199 + 1 from rfl, List.replicate_succ,
    show (3199 : Nat) = 3198 + 1 from rfl, List.replicate_succ]

lemma estListItems_rep3200 : estListItems (List.replicate 3200 'z') = 0 := by
  unfold estListItems
  rw [splitIf_no_sep _ _ (rep_sep_false 3200 _ (by decide))]
  rw [filter_single_of_false]
  · rfl
  · rw [rep3200_cons]
    exact bulletLine_zz _

lemma estSWA_rep3200 : estSWA (List.replicate 3200 'z') = 0 := by
  unfold estSWA
  rw [estSentences_rep3200]
  rw [filter_single_of_false]
  · rfl
  · simp only [pyLower_rep]
    rw [list_any_false _ _ fun v hv => hasSub_rep_false v (verbs_have_non_z v hv) 3200]
    rw [list_any_false _ _ fun a ha => hasSub_rep_false a (actors_have_non_z a ha) 3200]
    rfl

lemma estEstimates_rep3200 : estEstimates (List.replicate 3200 'z') = [21] := by
  unfold estEstimates
  rw [estFound_rep3200, estListItems_rep3200, estSWA_rep3200, List.length_replicate]
  norm_num

/-! ### JSON values

Values decodable by `json.loads`.  Numbers are modelled as integers
(the claims under verification do not depend on float rendering);
arrays and objects use mutually-inductive list types so that all
functions on them are structurally recursive and kernel-computable.
-/

mutual
inductive Json where
  | null
  | bool (b : Bool)
  | num (n : Int)
  | str (s : List Char)
  | arr (elts : JsonList)
  | obj (kvs : JsonObj)
inductive JsonList where
  | nil
  | cons (hd : Json) (tl : JsonList)
inductive JsonObj where
  | nil
  | cons (k : List Char) (v : Json) (tl : JsonObj)
end

def JsonList.toList : JsonList → List Json
  | .nil => []
  | .cons h t => h :: t.toList

def JsonObj.pairs : JsonObj → List (Str × Json)
  | .nil => []
  | .cons k v t => (k, v) :: t.pairs

/-- Python `dict.get` (keys of a decoded JSON object are unique, so
first-match lookup is exact). -/
def jget : JsonObj → Str → Option Json
  | .nil, _ => none
  | .cons k2 v t, k => if k2 = k then some v else jget t k

/-- Python truthiness of a decoded JSON value. -/
def pyTruthy : Json → Bool
  | .null => false
  | .bool b => b
  | .num n => decide (n ≠ 0)
  | .str s => !s.isEmpty
  | .arr .nil => false
  | .arr _ => true
  | .obj .nil => false
  | .obj _ => true

def digitChar (d : Nat) : Char := Char.ofNat (48 + d)

def natStrGo : Nat → Nat → Str
  | 0, _ => []
  | fuel + 1, n =>
      if n < 10 then [digitChar n]
      else natStrGo fuel (n / 10) ++ [digitChar (n % 10)]

/-- Decimal rendering of a natural number. -/
def natStr (n : Nat) : Str := natStrGo (n + 1) n

/-- Python `str` of an integer. -/
def intStr (i : Int) : Str :=
  if i < 0 then '-' :: natStr i.natAbs else natStr i.natAbs

def sqChar : Char := Char.ofNat 39
def dqChar : Char := Char.ofNat 34
def lbChar : Char := Char.ofNat 123
def rbChar : Char := Char.ofNat 125

/- Python `repr` of a decoded JSON value (model: strings are rendered
in single quotes without escape processing; the claims do not depend
on the rendered text of strings needing escapes). -/
mutual
def pyRepr : Json → Str
  | .null => S "None"
  | .bool true => S "True"
  | .bool false => S "False"
  | .num n => intStr n
  | .str s => sqChar :: s ++ [sqChar]
  | .arr l => '[' :: pyReprList l ++ [']']
  | .obj o => lbChar :: pyReprObj o ++ [rbChar]
def pyReprList : JsonList → Str
  | .nil => []
  | .cons x .nil => pyRepr x
  | .cons x xs => pyRepr x ++ S ", " ++ pyReprList xs
def pyReprObj : JsonObj → Str
  | .nil => []
  | .cons k v .nil => sqChar :: k ++ [sqChar] ++ S ": " ++ pyRepr v
  | .cons k v tl => sqChar :: k ++ [sqChar] ++ S ": " ++ pyRepr v ++ S ", " ++ pyReprObj tl
end

/-- Python `str` of a decoded JSON value (`str` of a `str` is itself;
containers render via `repr` of their elements). -/
def pyStr : Json → Str
  | .str s => s
  | j => pyRepr j

/- `json.dumps` (model: strings rendered in double quotes without
escape processing). -/
mutual
def jsonDumps : Json → Str
  | .null => S "null"
  | .bool true => S "true"
  | .bool false => S "false"
  | .num n => intStr n
  | .str s => dqChar :: s ++ [dqChar]
  | .arr l => '[' :: jsonDumpsList l ++ [']']
  | .obj o => lbChar :: jsonDumpsObj o ++ [rbChar]
def jsonDumpsList : JsonList → Str
  | .nil => []
  | .cons x .nil => jsonDumps x
  | .cons x xs => jsonDumps x ++ S ", " ++ jsonDumpsList xs
def jsonDumpsObj : JsonObj → Str
  | .nil => []
  | .cons k v .nil => dqChar :: k ++ [dqChar] ++ S ": " ++ jsonDumps v
  | .cons k v tl => dqChar :: k ++ [dqChar] ++ S ": " ++ jsonDumps v ++ S ", " ++ jsonDumpsObj tl
end

/-! ### `flatten_use_case` (backend/utilities/use_case_utilities.py) -/

/-- The flat record produced by `flatten_use_case` (`title` keeps the
raw JSON value, as in the source; the six list fields are lists of
strings). -/
structure FlatUC where
  title : Json
  preconditions : List Str
  main_flow : List Str
  sub_flows : List Str
  alternate_flows : List Str
  outcomes : List Str
  stakeholders : List Str

/-- The inner `ensure_list` helper of `flatten_use_case`. -/
def ensure_list (value : Option Json) (placeholder : Option Str) : List Str :=
  match value with
  | some (Json.arr jl) =>
      match jl.toList.map (fun v => match v with | Json.str s => s | w => pyStr w) with
      | [] => match placeholder with
              | some p => if p.isEmpty then [] else [p]
              | none => []
      | l => l
  | some (Json.obj kvs) =>
      match kvs.pairs.map (fun kv => kv.1 ++ S ": " ++ pyStr kv.2) with
      | [] => match placeholder with
              | some p => if p.isEmpty then [] else [p]
              | none => []
      | l => l
  | some v =>
      if pyTruthy v then [pyStr v]
      else match placeholder with
           | some p => if p.isEmpty then [] else [p]
           | none => []
  | none =>
      match placeholder with
      | some p => if p.isEmpty then [] else [p]
      | none => []

/-- `flatten_use_case` (a missing key and a key holding JSON `null`
both reach `ensure_list` as Python `None`; `jget` distinguishes them
but `ensure_list` treats `some Json.null` and `none` identically). -/
def flatten_use_case (data : JsonObj) : FlatUC :=
  { title := (jget data (S "title")).getD (Json.str (S "Untitled"))
    preconditions :=
      ensure_list (jget data (S "preconditions")) (some (S "User is authenticated"))
    main_flow := ensure_list (jget data (S "main_flow")) (some (S "Action performed"))
    sub_flows :=
      ensure_list (jget data (S "sub_flows")) (some (S "Optional features available"))
    alternate_flows :=
      ensure_list (jget data (S "alternate_flows")) (some (S "Error handling included"))
    outcomes :=
      ensure_list (jget data (S "outcomes")) (some (S "Task completed successfully"))
    stakeholders := ensure_list (jget data (S "stakeholders")) (some (S "User")) }

/-- Modelled from the spec: the per-field coercion table stated in the
specification for `flatten_use_case` — "list→list-of-strings
(stringifying non-string elements); dict→list of `key: value` strings;
scalar→singleton list; missing/falsy→a single-element placeholder
list". -/
def specCoerce (value : Option Json) (placeholder : Str) : List Str :=
  match value with
  | some (Json.arr jl) =>
      if jl.toList.isEmpty then [placeholder]
      else jl.toList.map fun v => match v with | Json.str s => s | w => pyStr w
  | some (Json.obj kvs) =>
      if kvs.pairs.isEmpty then [placeholder]
      else kvs.pairs.map fun kv => kv.1 ++ S ": " ++ pyStr kv.2
  | some v => if pyTruthy v then [pyStr v] else [placeholder]
  | none => [placeholder]

lemma ensure_list_eq_spec (v : Option Json) (p : Str) (hp : ¬p.isEmpty) :
    ensure_list v (some p) = specCoerce v p := by
  match v with
  | none => simp [ensure_list, specCoerce, hp]
  | some Json.null => simp [ensure_list, specCoerce, pyTruthy, hp]
  | some (Json.bool b) => cases b <;> simp [ensure_list, specCoerce, pyTruthy, hp]
  | some (Json.num n) =>
      by_cases hn : n = 0 <;> simp [ensure_list, specCoerce, pyTruthy, hn, hp]
  | some (Json.str s) =>
      by_cases hs : s.isEmpty <;> simp [ensure_list, specCoerce, pyTruthy, hs, hp]
  | some (Json.arr jl) => cases jl <;> simp [ensure_list, specCoerce, JsonList.toList, hp]
  | some (Json.obj kvs) => cases kvs <;> simp [ensure_list, specCoerce, JsonObj.pairs, hp]

lemma specCoerce_ne_nil (v : Option Json) (p : Str) : specCoerce v p ≠ [] := by
  match v with
  | none => simp [specCoerce]
  | some Json.null => simp [specCoerce, pyTruthy]
  | some (Json.bool b) => cases b <;> simp [specCoerce, pyTruthy]
  | some (Json.num n) => by_cases hn : n = 0 <;> simp [specCoerce, pyTruthy, hn]
  | some (Json.str s) => by_cases hs : s.isEmpty <;> simp [specCoerce, pyTruthy, hs]
  | some (Json.arr jl) => cases jl <;> simp [specCoerce, JsonList.toList]
  | some (Json.obj kvs) => cases kvs <;> simp [specCoerce, JsonObj.pairs]

/--
C2: for every JSON-decodable dict input, `flatten_use_case` returns a
record whose six list fields each equal the specified coercion of the
corresponding input value (list→list of strings with non-strings
stringified, dict→`key: value` strings, truthy scalar→singleton,
missing/falsy→field-specific placeholder, preconditions defaulting to
"User is authenticated"), hence each field is a non-empty list of
strings; the title defaults to `"Untitled"` when the key is absent.
The function is total on decoded JSON input (it cannot raise).
-/
theorem C2_flatten_covers_all_fields (data : JsonObj) :
    ((flatten_use_case data).preconditions =
        specCoerce (jget data (S "preconditions")) (S "User is authenticated") ∧
      (flatten_use_case data).main_flow =
        specCoerce (jget data (S "main_flow")) (S "Action performed") ∧
      (flatten_use_case data).sub_flows =
        specCoerce (jget data (S "sub_flows")) (S "Optional features available") ∧
      (flatten_use_case data).alternate_flows =
        specCoerce (jget data (S "alternate_flows")) (S "Error handling included") ∧
      (flatten_use_case data).outcomes =
        specCoerce (jget data (S "outcomes")) (S "Task completed successfully") ∧
      (flatten_use_case data).stakeholders =
        specCoerce (jget data (S "stakeholders")) (S "User")) ∧
    ((flatten_use_case data).preconditions ≠ [] ∧
      (flatten_use_case data).main_flow ≠ [] ∧
      (flatten_use_case data).sub_flows ≠ [] ∧
      (flatten_use_case data).alternate_flows ≠ [] ∧
      (flatten_use_case data).outcomes ≠ [] ∧
      (flatten_use_case data).stakeholders ≠ []) ∧
    (jget data (S "title") = none →
      (flatten_use_case data).title = Json.str (S "Untitled")) := by
  refine ⟨⟨?_, ?_, ?_, ?_, ?_, ?_⟩, ⟨?_, ?_, ?_, ?_, ?_, ?_⟩, fun h => ?_⟩
  · exact ensure_list_eq_spec _ _ (by decide)
  · exact ensure_list_eq_spec _ _ (by decide)
  · exact ensure_list_eq_spec _ _ (by decide)
  · exact ensure_list_eq_spec _ _ (by decide)
  · exact ensure_list_eq_spec _ _ (by decide)
  · exact ensure_list_eq_spec _ _ (by decide)
  · rw [show (flatten_use_case data).preconditions =
      ensure_list (jget data (S "preconditions")) (some (S "User is authenticated")) from rfl,
      ensure_list_eq_spec _ _ (by decide)]
    exact specCoerce_ne_nil _ _
  · rw [show (flatten_use_case data).main_flow =
      ensure_list (jget data (S "main_flow")) (some (S "Action performed")) from rfl,
      ensure_list_eq_spec _ _ (by decide)]
    exact specCoerce_ne_nil _ _
  · rw [show (flatten_use_case data).sub_flows =
      ensure_list (jget data (S "sub_flows")) (some (S "Optional features available")) from rfl,
      ensure_list_eq_spec _ _ (by decide)]
    exact specCoerce_ne_nil _ _
  · rw [show (flatten_use_case data).alternate_flows =
      ensure_list (jget data (S "alternate_flows")) (some (S "Error handling included")) from rfl,
      ensure_list_eq_spec _ _ (by decide)]
    exact specCoerce_ne_nil _ _
  · rw [show (flatten_use_case data).outcomes =
      ensure_list (jget data (S "outcomes")) (some (S "Task completed successfully")) from rfl,
      ensure_list_eq_spec _ _ (by decide)]
    exact specCoerce_ne_nil _ _
  · rw [show (flatten_use_case data).stakeholders =
      ensure_list (jget data (S "stakeholders")) (some (S "User")) from rfl,
      ensure_list_eq_spec _ _ (by decide)]
    exact specCoerce_ne_nil _ _
  · show ((jget data (S "title")).getD (Json.str (S "Untitled"))) = Json.str (S "Untitled")
    rw [h]
    rfl

/-- Witness for C2 on the empty dict. -/
theorem C2_witness :
    (flatten_use_case JsonObj.nil).preconditions = [S "User is authenticated"] ∧
    (flatten_use_case JsonObj.nil).title = Json.str (S "Untitled") := by
  refine ⟨?_, (C2_flatten_covers_all_fields JsonObj.nil).2.2 rfl⟩
  rw [(C2_flatten_covers_all_fields JsonObj.nil).1.1]
  rfl

/--
C10 (counterexample): on a 3200-character text with no recognizable
action verbs, actors, sentence separators or list markers (3200 times
'z'), `estimate_use_cases` returns `min_estimate = 21` and
`max_estimate = 20`, so `min_estimate ≤ max_estimate` fails: the only
heuristic estimate is the character-count floor `3200 // 150 = 21`,
which is capped to 20 in `max_estimate` but not in `min_estimate`.
-/
theorem C10_counterexample :
    (estimate_use_cases (List.replicate 3200 'z')).min_estimate = 21 ∧
    (estimate_use_cases (List.replicate 3200 'z')).max_estimate = 20 ∧
    ¬((estimate_use_cases (List.replicate 3200 'z')).min_estimate ≤
        (estimate_use_cases (List.replicate 3200 'z')).max_estimate) := by
  have h1 : (estimate_use_cases (List.replicate 3200 'z')).min_estimate = 21 := by
    rw [min_estimate_eq, estEstimates_rep3200]
    rfl
  have h2 : (estimate_use_cases (List.replicate 3200 'z')).max_estimate = 20 := by
    rw [max_estimate_eq, estEstimates_rep3200, List.length_replicate]
    rfl
  exact ⟨h1, h2, by omega⟩

/-! ### `merge_extracted_use_cases` (backend/utilities/chunking_strategy.py)

A per-chunk result item is a use-case dict; only its `"title"` key
matters to the merge.  Titles are strings throughout the pipeline (a
non-string title would make `.lower()` raise in the source, outside
this claim), so an item is modelled as an optional title plus its
remaining payload.
-/

structure ChunkUC where
  titleKV : Option Str
  payload : JsonObj

def joinWith (sep : Str) : List Str → Str
  | [] => []
  | [x] => x
  | x :: xs => x ++ sep ++ joinWith sep xs

/-- `uc.get("title", "").lower().strip()`. -/
def normTitle (uc : ChunkUC) : Str := pyStrip (pyLower (uc.titleKV.getD (S "")))

/-- `DocumentChunker.merge_extracted_use_cases`: two nested loops over
the chunk results, skipping any item whose normalized title is in
`seen_titles`. -/
def merge_extracted_use_cases (chunk_results : List (List ChunkUC)) : List ChunkUC :=
  (chunk_results.foldl
    (fun st chunk_uc_list =>
      chunk_uc_list.foldl
        (fun st2 uc =>
          let title_normalized := normTitle uc
          if title_normalized ∈ st2.1 then st2
          else (title_normalized :: st2.1, st2.2 ++ [uc]))
        st)
    (([] : List Str), ([] : List ChunkUC))).2

/-- Modelled from the spec: "concatenate all chunks' results in chunk
order, drop any item whose lowercase-trimmed title was already seen in
an earlier chunk's results (first occurrence wins)". -/
def mergeSpecKeep (seen : List Str) : List ChunkUC → List ChunkUC
  | [] => []
  | uc :: rest =>
      let key := normTitle uc
      if key ∈ seen then mergeSpecKeep seen rest
      else uc :: mergeSpecKeep (key :: seen) rest

lemma merge_loop_spec (items : List ChunkUC) :
    ∀ (seen : List Str) (acc : List ChunkUC),
      items.foldl
        (fun st2 uc =>
          let title_normalized := normTitle uc
          if title_normalized ∈ st2.1 then st2
          else (title_normalized :: st2.1, st2.2 ++ [uc]))
        (seen, acc) =
      (((mergeSpecKeep seen items).map normTitle).reverse ++ seen,
        acc ++ mergeSpecKeep seen items) := by
  induction items with
  | nil => intro seen acc; simp [mergeSpecKeep]
  | cons uc rest ih =>
    intro seen acc
    simp only [List.foldl_cons, mergeSpecKeep]
    by_cases h : normTitle uc ∈ seen
    · simp only [h, if_pos, if_true]
      exact ih seen acc
    · simp only [h, if_neg, if_false, ite_false]
      rw [ih (normTitle uc :: seen) (acc ++ [uc])]
      simp [List.append_assoc]

/--
C9: cross-chunk merge keeps exactly the first occurrence of each
normalized (lowercased, stripped) title: `merge_extracted_use_cases`
equals the concatenation of the chunk results in chunk order with
every item dropped whose normalized title equals that of an earlier
item (first occurrence wins, keeping its original casing); and on the
spec's concrete example
`[[{"title":"Login"},{"title":"Search"}],[{"title":"login"},{"title":"Checkout"}]]`
it returns exactly the three items titled Login, Search, Checkout.
-/
theorem C9_merge_keeps_first_occurrence :
    (∀ chunk_results : List (List ChunkUC),
      merge_extracted_use_cases chunk_results =
        mergeSpecKeep [] chunk_results.flatten) ∧
    merge_extracted_use_cases
        [[⟨some (S "Login"), .nil⟩, ⟨some (S "Search"), .nil⟩],
         [⟨some (S "login"), .nil⟩, ⟨some (S "Checkout"), .nil⟩]] =
      [⟨some (S "Login"), .nil⟩, ⟨some (S "Search"), .nil⟩,
        ⟨some (S "Checkout"), .nil⟩] := by
  have hmain : ∀ chunk_results : List (List ChunkUC),
      merge_extracted_use_cases chunk_results =
        mergeSpecKeep [] chunk_results.flatten := by
    intro css
    unfold merge_extracted_use_cases
    have hgen : ∀ (seen : List Str) (acc : List ChunkUC),
        (css.foldl
          (fun st chunk_uc_list =>
            chunk_uc_list.foldl
              (fun st2 uc =>
                let title_normalized := normTitle uc
                if title_normalized ∈ st2.1 then st2
                else (title_normalized :: st2.1, st2.2 ++ [uc]))
              st)
          (seen, acc)) =
        (((mergeSpecKeep seen css.flatten).map normTitle).reverse ++ seen,
          acc ++ mergeSpecKeep seen css.flatten) := by
      induction css with
      | nil => intro seen acc; simp [mergeSpecKeep]
      | cons chunk rest ih =>
        intro seen acc
        simp only [List.foldl_cons, List.flatten_cons]
        rw [merge_loop_spec chunk seen acc]
        rw [ih]
        have hsplit : ∀ (s : List Str) (l1 l2 : List ChunkUC),
            mergeSpecKeep s (l1 ++ l2) =
              mergeSpecKeep s l1 ++
                mergeSpecKeep (((mergeSpecKeep s l1).map normTitle).reverse ++ s) l2 := by
          intro s l1
          induction l1 generalizing s with
          | nil => intro l2; simp [mergeSpecKeep]
          | cons uc r ihl =>
            intro l2
            simp only [List.cons_append, mergeSpecKeep]
            by_cases h : normTitle uc ∈ s
            · simp only [h, if_true]
              exact ihl s l2
            · simp only [h, if_false, ite_false]
              rw [show List.append r l2 = r ++ l2 from rfl]
              rw [ihl (normTitle uc :: s) l2]
              simp [List.append_assoc]
        rw [hsplit]
        simp [List.append_assoc]
    rw [hgen [] []]
    simp
  refine ⟨hmain, ?_⟩
  rw [hmain]
  rfl

/-! ### Duplicate detection (backend/managers/parse_manager.py, lines 126-168)

The sentence embedder and `torch` cosine similarity are external
collaborators; they are modelled by an oracle `sims` giving, for a
candidate's embedding text, its cosine similarities against the
embeddings of the previously stored use cases of the session (one
entry per stored use case with a truthy `main_flow`; the empty list
models `existing_embeddings is None`).  Similarity scores are modelled
as exact rationals.
-/

/-- The canonical flat use-case record handled by the pipeline. -/
structure UseCase where
  title : Str
  preconditions : List Str
  main_flow : List Str
  sub_flows : List Str
  alternate_flows : List Str
  outcomes : List Str
  stakeholders : List Str
deriving DecidableEq

/-- `compute_usecase_embedding`'s input text:
`use_case.title + " " + " ".join(use_case.main_flow)`
(backend/utilities/use_case_utilities.py). -/
def usecaseEmbedText (uc : UseCase) : Str :=
  uc.title ++ [' '] ++ joinWith [' '] uc.main_flow

/-- `float(torch.max(cos_sim))` over a nonempty similarity tensor. -/
def maxQ : List ℚ → ℚ
  | [] => 0
  | h :: t => t.foldl max h

/-- The per-candidate duplicate decision of the storage loop:
`is_duplicate` is set exactly when existing embeddings are present and
the maximum cosine similarity is `≥ threshold` (0.85). -/
def is_duplicate_of (sims : Str → List ℚ) (uc : UseCase) : Bool :=
  match sims (usecaseEmbedText uc) with
  | [] => false
  | l => decide ((85 / 100 : ℚ) ≤ maxQ l)

/-- The "check for duplicates and store" loop of
`parse_large_document_chunked`: returns the `results` status list
(status, title) and the list of persisted use cases, in order. -/
def parse_dedup_store (sims : Str → List ℚ) (all_use_cases : List UseCase) :
    List (Str × Str) × List UseCase :=
  all_use_cases.foldl
    (fun st uc =>
      if is_duplicate_of sims uc then
        (st.1 ++ [(S "duplicate_skipped", uc.title)], st.2)
      else
        (st.1 ++ [(S "stored", uc.title)], st.2 ++ [uc]))
    ([], [])

/--
C5: a candidate is flagged duplicate exactly when the session has
previously stored use cases and the maximum cosine similarity of its
embedding text (title concatenated with the joined main flow) against
them is `≥ 0.85`; a candidate with maximum similarity exactly 0.850 is
reported "duplicate_skipped" and not persisted, one with 0.849 is
persisted and reported "stored", and with no previously stored use
cases a candidate is never flagged duplicate.
-/
theorem C5_duplicate_threshold_boundary :
    (∀ (sims : Str → List ℚ) (uc : UseCase),
      is_duplicate_of sims uc = true ↔
        (sims (usecaseEmbedText uc) ≠ [] ∧
          (85 / 100 : ℚ) ≤ maxQ (sims (usecaseEmbedText uc)))) ∧
    (∀ (sims : Str → List ℚ) (ucs : List UseCase),
      parse_dedup_store sims ucs =
        (ucs.map fun uc =>
          (if is_duplicate_of sims uc then S "duplicate_skipped" else S "stored",
            uc.title),
         ucs.filter fun uc => !is_duplicate_of sims uc)) ∧
    (∀ uc : UseCase,
      parse_dedup_store (fun _ => [(850 / 1000 : ℚ)]) [uc] =
        ([(S "duplicate_skipped", uc.title)], []) ∧
      parse_dedup_store (fun _ => [(849 / 1000 : ℚ)]) [uc] =
        ([(S "stored", uc.title)], [uc]) ∧
      parse_dedup_store (fun _ => []) [uc] =
        ([(S "stored", uc.title)], [uc])) := by
  have hiff : ∀ (sims : Str → List ℚ) (uc : UseCase),
      is_duplicate_of sims uc = true ↔
        (sims (usecaseEmbedText uc) ≠ [] ∧
          (85 / 100 : ℚ) ≤ maxQ (sims (usecaseEmbedText uc))) := by
    intro sims uc
    unfold is_duplicate_of
    match h : sims (usecaseEmbedText uc) with
    | [] => simp
    | a :: l => simp
  have hloop : ∀ (sims : Str → List ℚ) (ucs : List UseCase),
      parse_dedup_store sims ucs =
        (ucs.map fun uc =>
          (if is_duplicate_of sims uc then S "duplicate_skipped" else S "stored",
            uc.title),
         ucs.filter fun uc => !is_duplicate_of sims uc) := by
    intro sims ucs
    unfold parse_dedup_store
    have hgen : ∀ (r : List (Str × Str)) (k : List UseCase),
        ucs.foldl
          (fun st uc =>
            if is_duplicate_of sims uc then
              (st.1 ++ [(S "duplicate_skipped", uc.title)], st.2)
            else
              (st.1 ++ [(S "stored", uc.title)], st.2 ++ [uc]))
          (r, k) =
        (r ++ ucs.map fun uc =>
          (if is_duplicate_of sims uc then S "duplicate_skipped" else S "stored",
            uc.title),
         k ++ ucs.filter fun uc => !is_duplicate_of sims uc) := by
      induction ucs with
      | nil => intro r k; simp
      | cons uc rest ih =>
        intro r k
        simp only [List.foldl_cons, List.map_cons, List.filter_cons]
        by_cases h : is_duplicate_of sims uc
        · simp only [h, if_true, ite_true, Bool.not_true]
          rw [ih]
          simp [List.append_assoc]
        · simp only [h, if_false, ite_false, Bool.not_false]
          rw [ih]
          simp [List.append_assoc]
    rw [hgen [] []]
    simp
  refine ⟨hiff, hloop, fun uc => ⟨?_, ?_, ?_⟩⟩
  · rw [hloop]
    have hd : is_duplicate_of (fun _ => [(850 / 1000 : ℚ)]) uc = true := by
      unfold is_duplicate_of maxQ
      norm_num
    simp [hd]
  · rw [hloop]
    have hd : is_duplicate_of (fun _ => [(849 / 1000 : ℚ)]) uc = false := by
      unfold is_duplicate_of maxQ
      norm_num
    simp [hd]
  · rw [hloop]
    have hd : is_duplicate_of (fun _ => []) uc = false := by
      unfold is_duplicate_of
      simp
    simp [hd]

/-! ### `clean_llm_json` (backend/utilities/llm_generation.py) -/

def bsChar : Char := Char.ofNat 92

def findCharFrom : Str → Char → Nat → Option Nat
  | [], _, _ => none
  | a :: r, c, i => if a = c then some i else findCharFrom r c (i + 1)

/-- Python `str.find` for a single character (`none` models `-1`). -/
def findChar (s : Str) (c : Char) : Option Nat := findCharFrom s c 0

/-- Python `str.rfind` for a single character. -/
def rfindChar (s : Str) (c : Char) : Option Nat :=
  match findCharFrom s.reverse c 0 with
  | some j => some (s.length - 1 - j)
  | none => none

def replaceAllGo : Nat → Str → Str → Str → Str
  | 0, s, _, _ => s
  | fuel + 1, s, pat, rep =>
    match s with
    | [] => []
    | c :: rest =>
        if isPrefOf pat s then rep ++ replaceAllGo fuel (s.drop pat.length) pat rep
        else c :: replaceAllGo fuel rest pat rep

/-- Python `str.replace` (leftmost, non-overlapping, replacement not
rescanned) for a non-empty pattern. -/
def replaceAll (s pat rep : Str) : Str := replaceAllGo s.length s pat rep

def countChar (s : Str) (c : Char) : Nat := (s.filter fun a => a = c).length

def commaFixGo : Nat → Str → Str
  | 0, s => s
  | fuel + 1, s =>
    match s with
    | [] => []
    | c :: rest =>
        if c = ',' then
          match rest.dropWhile isPySpace with
          | d :: r2 =>
              if d = rbChar || d = ']' then
                rest.takeWhile isPySpace ++ d :: commaFixGo fuel r2
              else c :: commaFixGo fuel rest
          | [] => c :: commaFixGo fuel rest
        else c :: commaFixGo fuel rest

/-- `re.sub(r",(\s*[}\]])", r"\1", s)`: drop any comma directly
followed by optional whitespace and a closing brace/bracket, keeping
the whitespace and closer. -/
def commaFix (s : Str) : Str := commaFixGo s.length s

/-- `clean_llm_json` (backend/utilities/llm_generation.py), step for
step: strip + fence removal (`^```json\s*`, `^```\s*`, `\s*```$`),
truncation to the first `[` (when positive) and last `]`, unescaping
of `\"` then `\\"`, Python-literal replacement, trailing-comma
removal, and brace/bracket balancing by appended closers. -/
def cleanFences (json_str : Str) : Str :=
  let s1 := let t := pyStrip json_str
            if isPrefOf (S "```json") t then (t.drop 7).dropWhile isPySpace else t
  let s2 := let t := pyStrip s1
            if isPrefOf (S "```") t then (t.drop 3).dropWhile isPySpace else t
  let t := pyStrip s2
  if isPrefOf (S "```") t.reverse then
    ((t.reverse.drop 3).dropWhile isPySpace).reverse
  else t

def cleanBrackets (s3 : Str) : Str :=
  let s4 := match findChar s3 '[' with
            | some i => if 0 < i then s3.drop i else s3
            | none => s3
  match rfindChar s4 ']' with
  | some i => s4.take (i + 1)
  | none => s4

def cleanReplacements (s5 : Str) : Str :=
  replaceAll (replaceAll (replaceAll (replaceAll (replaceAll s5
    [bsChar, dqChar] [dqChar]) [bsChar, bsChar, dqChar] [dqChar])
    (S "None") (S "null")) (S "True") (S "true")) (S "False") (S "false")

def cleanBalance (s11 : Str) : Str :=
  let s12 := if countChar s11 rbChar < countChar s11 lbChar then
               s11 ++ List.replicate (countChar s11 lbChar - countChar s11 rbChar) rbChar
             else s11
  if countChar s12 ']' < countChar s12 '[' then
    s12 ++ List.replicate (countChar s12 '[' - countChar s12 ']') ']'
  else s12

def clean_llm_json (json_str : Str) : Str :=
  cleanBalance (commaFix (cleanReplacements (cleanBrackets (cleanFences json_str))))

/-! A model of `json.loads` (fuel-based recursive descent over the
standard JSON grammar; numbers are modelled as optionally signed digit
runs — the concrete inputs of the theorems below contain no fractional
or exponent literals). -/

def jsonWsChar (c : Char) : Bool := c = ' ' || c = '\t' || c = '\n' || c = '\r'

def parseDigitsJ (s : Str) : Option (Nat × Str) :=
  let ds := s.takeWhile Char.isDigit
  if ds.isEmpty then none
  else some (ds.foldl (fun acc c => acc * 10 + (c.toNat - 48)) 0, s.drop ds.length)

mutual
def parseVal : Nat → Str → Option (Json × Str)
  | 0, _ => none
  | fuel + 1, s =>
    match s with
    | [] => none
    | c :: rest =>
      if c = dqChar then
        match parseStrBody fuel rest with
        | some (t, r) => some (Json.str t, r)
        | none => none
      else if c = '[' then
        match rest.dropWhile jsonWsChar with
        | ']' :: r2 => some (Json.arr .nil, r2)
        | r2 => match parseElems fuel r2 with
                | some (l, r3) => some (Json.arr l, r3)
                | none => none
      else if c = lbChar then
        match rest.dropWhile jsonWsChar with
        | c2 :: r2 =>
            if c2 = rbChar then some (Json.obj .nil, r2)
            else match parseMembers fuel (c2 :: r2) with
                 | some (o, r3) => some (Json.obj o, r3)
                 | none => none
        | [] => none
      else if isPrefOf (S "true") s then some (Json.bool true, s.drop 4)
      else if isPrefOf (S "false") s then some (Json.bool false, s.drop 5)
      else if isPrefOf (S "null") s then some (Json.null, s.drop 4)
      else if c = '-' then
        match parseDigitsJ rest with
        | some (n, r) => some (Json.num (-(n : Int)), r)
        | none => none
      else
        match parseDigitsJ s with
        | some (n, r) => some (Json.num (n : Int), r)
        | none => none

def parseStrBody : Nat → Str → Option (Str × Str)
  | 0, _ => none
  | fuel + 1, s =>
    match s with
    | [] => none
    | c :: rest =>
      if c = dqChar then some ([], rest)
      else if c = bsChar then
        match rest with
        | [] => none
        | e :: rest2 =>
          let dec : Option Char :=
            if e = dqChar then some dqChar
            else if e = bsChar then some bsChar
            else if e = '/' then some '/'
            else if e = 'n' then some '\n'
            else if e = 't' then some '\t'
            else if e = 'r' then some '\r'
            else if e = 'b' then some (Char.ofNat 8)
            else if e = 'f' then some (Char.ofNat 12)
            else none
          match dec with
          | some d =>
            match parseStrBody fuel rest2 with
            | some (t, r) => some (d :: t, r)
            | none => none
          | none => none
      else
        match parseStrBody fuel rest with
        | some (t, r) => some (c :: t, r)
        | none => none

def parseElems : Nat → Str → Option (JsonList × Str)
  | 0, _ => none
  | fuel + 1, s =>
    match parseVal fuel s with
    | none => none
    | some (v, r) =>
      match r.dropWhile jsonWsChar with
      | ',' :: r2 =>
          match parseElems fuel (r2.dropWhile jsonWsChar) with
          | some (tl, r3) => some (.cons v tl, r3)
          | none => none
      | ']' :: r2 => some (.cons v .nil, r2)
      | _ => none

def parseMembers : Nat → Str → Option (JsonObj × Str)
  | 0, _ => none
  | fuel + 1, s =>
    match s with
    | c :: rest =>
      if c = dqChar then
        match parseStrBody fuel rest with
        | some (k, r) =>
          match r.dropWhile jsonWsChar with
          | ':' :: r2 =>
            match parseVal fuel (r2.dropWhile jsonWsChar) with
            | some (v, r3) =>
              match r3.dropWhile jsonWsChar with
              | ',' :: r4 =>
                  match parseMembers fuel (r4.dropWhile jsonWsChar) with
                  | some (tl, r5) => some (.cons k v tl, r5)
                  | none => none
              | c2 :: r4 =>
                  if c2 = rbChar then some (.cons k v .nil, r4) else none
              | [] => none
            | none => none
          | _ => none
        | none => none
      else none
    | [] => none
end

/-- `json.loads`: a value surrounded by optional whitespace; trailing
content is an error. -/
def jsonParse (s : Str) : Option Json :=
  match parseVal (2 * s.length + 4) (s.dropWhile jsonWsChar) with
  | some (v, r) => if (r.dropWhile jsonWsChar).isEmpty then some v else none
  | none => none

/-! ### C3: idempotence of `clean_llm_json` on valid output -/

lemma dropWhile_cons_false {p : Char → Bool} {a : Char} {l : Str} (h : p a = false) :
    List.dropWhile p (a :: l) = a :: l := by
  simp [List.dropWhile_cons, h]

lemma exists_cons_of_pref_single {c : Char} {s : Str} (h : isPrefOf [c] s = true) :
    ∃ t, s = c :: t := by
  match s with
  | [] => exact absurd h (by simp [isPrefOf])
  | a :: t =>
    refine ⟨t, ?_⟩
    have : c = a := by
      by_contra hc
      simp [isPrefOf, hc] at h
    rw [this]

lemma pyStrip_id_of {c : Str} (h1 : isPrefOf (S "[") c = true)
    (h2 : isPrefOf (S "]") c.reverse = true) : pyStrip c = c := by
  obtain ⟨t1, ht1⟩ := exists_cons_of_pref_single h1
  obtain ⟨r1, hr1⟩ := exists_cons_of_pref_single h2
  unfold pyStrip
  rw [ht1, dropWhile_cons_false (by decide), ← ht1, hr1,
    dropWhile_cons_false (by decide), ← hr1, List.reverse_reverse]

lemma hasSub_false_all {pat s : Str} (hpat : pat ≠ []) (h : hasSub pat s = false) :
    ∀ i, isPrefOf pat (s.drop i) = false := by
  intro i
  by_cases hi : i < s.length + 1
  · by_contra hc
    rw [Bool.not_eq_false] at hc
    have : hasSub pat s = true := by
      unfold hasSub
      rw [List.any_eq_true]
      exact ⟨i, List.mem_range.mpr hi, hc⟩
    rw [this] at h
    cases h
  · have : s.drop i = [] := List.drop_eq_nil_of_le (by omega)
    rw [this]
    match pat, hpat with
    | a :: r, _ => rfl

lemma replaceAllGo_id {pat rep : Str} (hpat : pat ≠ []) :
    ∀ (fuel : Nat) (s : Str), s.length ≤ fuel →
      (∀ i, isPrefOf pat (s.drop i) = false) →
      replaceAllGo fuel s pat rep = s := by
  intro fuel
  induction fuel with
  | zero => intro s hl _; rfl
  | succ f ih =>
    intro s hl hno
    match s with
    | [] => rfl
    | c :: rest =>
      unfold replaceAllGo
      rw [show isPrefOf pat (c :: rest) = false from by
        have := hno 0
        simpa using this]
      simp only [Bool.false_eq_true, if_false, ite_false]
      rw [ih rest (by simpa using Nat.le_of_succ_le_succ (by simpa using hl))
        fun i => by
          have := hno (i + 1)
          simpa using this]

lemma replaceAll_id {s pat rep : Str} (hpat : pat ≠ [])
    (h : hasSub pat s = false) : replaceAll s pat rep = s :=
  replaceAllGo_id hpat s.length s (Nat.le_refl _) (hasSub_false_all hpat h)


/-- A comma at position `i` of `s` directly followed by optional
whitespace and a closing brace/bracket (a match of the regex
`,(\s*[}\]])` at `i`). -/
def commaCloserAt (s : Str) (i : Nat) : Bool :=
  match s.drop i with
  | c :: rest =>
      if c = ',' then
        match rest.dropWhile isPySpace with
        | d :: _ => d = rbChar || d = ']'
        | [] => false
      else false
  | [] => false

def hasCommaCloser (s : Str) : Bool :=
  (List.range (s.length + 1)).any (commaCloserAt s)

lemma commaCloserAt_false_all {s : Str} (h : hasCommaCloser s = false) :
    ∀ i, commaCloserAt s i = false := by
  intro i
  by_cases hi : i < s.length + 1
  · by_contra hc
    rw [Bool.not_eq_false] at hc
    have : hasCommaCloser s = true := by
      unfold hasCommaCloser
      rw [List.any_eq_true]
      exact ⟨i, List.mem_range.mpr hi, hc⟩
    rw [this] at h
    cases h
  · have hd : s.drop i = [] := List.drop_eq_nil_of_le (by omega)
    unfold commaCloserAt
    rw [hd]

lemma commaCloserAt_succ (c : Char) (rest : Str) (i : Nat) :
    commaCloserAt (c :: rest) (i + 1) = commaCloserAt rest i := by
  unfold commaCloserAt
  rfl

lemma commaFixGo_id :
    ∀ (fuel : Nat) (s : Str), s.length ≤ fuel →
      (∀ i, commaCloserAt s i = false) →
      commaFixGo fuel s = s := by
  intro fuel
  induction fuel with
  | zero => intro s _ _; rfl
  | succ f ih =>
    intro s hl hno
    match s with
    | [] => rfl
    | c :: rest =>
      have hrest : commaFixGo f rest = rest := by
        apply ih rest (by simp at hl; omega)
        intro i
        rw [← commaCloserAt_succ c rest i]
        exact hno (i + 1)
      have h0 := hno 0
      unfold commaCloserAt at h0
      simp only [List.drop_zero] at h0
      unfold commaFixGo
      by_cases hc : c = ','
      · simp only [hc, if_true, ite_true] at h0 ⊢
        match hdw : rest.dropWhile isPySpace with
        | d :: r2 =>
          rw [hdw] at h0
          have h1 : (decide (d = rbChar) || decide (d = ']')) = false := by
            simpa using h0
          dsimp only
          rw [h1]
          simp only [Bool.false_eq_true, if_false, ite_false]
          rw [hrest]
        | [] =>
          rw [hdw] at h0
          rw [hrest]
      · simp only [hc, if_false, ite_false]
        rw [hrest]

lemma commaFix_id {s : Str} (h : hasCommaCloser s = false) : commaFix s = s :=
  commaFixGo_id s.length s (Nat.le_refl _) (commaCloserAt_false_all h)

lemma isPrefOf_iff_append {p : Str} :
    ∀ {q : Str}, isPrefOf p q = true ↔ ∃ r, q = p ++ r := by
  induction p with
  | nil => intro q; simp [isPrefOf]
  | cons a t ih =>
    intro q
    match q with
    | [] => simp [isPrefOf]
    | b :: qr =>
      constructor
      · intro h
        have hab : a = b := by
          by_contra hne
          simp [isPrefOf, hne] at h
        have ht : isPrefOf t qr = true := by
          subst hab
          simpa [isPrefOf] using h
        obtain ⟨r, hr⟩ := ih.mp ht
        exact ⟨r, by rw [hab, hr]; rfl⟩
      · rintro ⟨r, hr⟩
        cases hr
        simp [isPrefOf]
        exact ih.mpr ⟨r, rfl⟩

/-- Any string already in the shape `clean_llm_json` is meant to
produce — an array source (starts with `[`, ends with `]`) containing
no `\"` sequence, no Python literal tokens, no comma before a closer,
and no unbalanced opening brackets/braces — is a fixed point of
`clean_llm_json`. -/
lemma clean_llm_json_fixed {c : Str}
    (h1 : isPrefOf (S "[") c = true)
    (h2 : isPrefOf (S "]") c.reverse = true)
    (h3 : hasSub [bsChar, dqChar] c = false)
    (h4 : hasSub (S "None") c = false)
    (h5 : hasSub (S "True") c = false)
    (h6 : hasSub (S "False") c = false)
    (h7 : hasCommaCloser c = false)
    (h8 : countChar c lbChar ≤ countChar c rbChar)
    (h9 : countChar c '[' ≤ countChar c ']') :
    clean_llm_json c = c := by
  obtain ⟨t1, ht1⟩ := exists_cons_of_pref_single h1
  obtain ⟨r1, hr1⟩ := exists_cons_of_pref_single h2
  have hstrip : pyStrip c = c := pyStrip_id_of h1 h2
  have hpre1 : isPrefOf (S "```json") c = false := by rw [ht1]; rfl
  have hpre2 : isPrefOf (S "```") c = false := by rw [ht1]; rfl
  have hpre3 : isPrefOf (S "```") c.reverse = false := by rw [hr1]; rfl
  have hfind : findChar c '[' = some 0 := by rw [ht1]; rfl
  have hrfindrev : findCharFrom c.reverse ']' 0 = some 0 := by rw [hr1]; rfl
  have hrfind : rfindChar c ']' = some (c.length - 1) := by
    unfold rfindChar
    rw [hrfindrev]
    rfl
  have hlen : 1 ≤ c.length := by rw [ht1]; simp
  have htake : c.take (c.length - 1 + 1) = c := by
    have : c.length - 1 + 1 = c.length := by omega
    rw [this, List.take_length]
  have h3b : hasSub [bsChar, bsChar, dqChar] c = false := by
    by_contra hcc
    rw [Bool.not_eq_false] at hcc
    unfold hasSub at hcc
    rw [List.any_eq_true] at hcc
    obtain ⟨i, _, hp⟩ := hcc
    obtain ⟨r, hr⟩ := isPrefOf_iff_append.mp hp
    have hfalse := hasSub_false_all (by decide) h3 (i + 1)
    have hdrop : c.drop (i + 1) = [bsChar, dqChar] ++ r := by
      have : c.drop (i + 1) = (c.drop i).drop 1 := by
        rw [List.drop_drop]
      rw [this, hr]
      rfl
    rw [hdrop, (isPrefOf_iff_append.mpr ⟨r, rfl⟩ : isPrefOf [bsChar, dqChar]
      ([bsChar, dqChar] ++ r) = true)] at hfalse
    cases hfalse
  have hr1' : replaceAll c [bsChar, dqChar] [dqChar] = c :=
    replaceAll_id (by decide) h3
  have hr2' : replaceAll c [bsChar, bsChar, dqChar] [dqChar] = c :=
    replaceAll_id (by decide) h3b
  have hr3' : replaceAll c (S "None") (S "null") = c := replaceAll_id (by decide) h4
  have hr4' : replaceAll c (S "True") (S "true") = c := replaceAll_id (by decide) h5
  have hr5' : replaceAll c (S "False") (S "false") = c := replaceAll_id (by decide) h6
  have hcf : commaFix c = c := commaFix_id h7
  have hF : cleanFences c = c := by
    simp only [cleanFences, hstrip, hpre1, Bool.false_eq_true, if_false, ite_false,
      hpre2, hpre3]
  have hB : cleanBrackets c = c := by
    simp only [cleanBrackets, hfind]
    simp only [show ¬(0 : Nat) < 0 from by omega, if_false, ite_false]
    rw [hrfind]
    exact htake
  have hR : cleanReplacements c = c := by
    unfold cleanReplacements
    rw [hr1', hr2', hr3', hr4', hr5']
  have hBal : cleanBalance c = c := by
    simp only [cleanBalance]
    rw [if_neg (show ¬ countChar c rbChar < countChar c lbChar from by omega)]
    rw [if_neg (show ¬ countChar c ']' < countChar c '[' from by omega)]
  unfold clean_llm_json
  rw [hF, hB, hR, hcf, hBal]

/--
C3 (amended): re-cleaning an already-clean output is the identity — for
every string `s` whose cleaned form `clean_llm_json s` is a
well-formed JSON array source (starts with `[` and ends with `]`) that
contains no backslash-escaped quote `\"`, none of the Python literal
tokens `None`/`True`/`False`, no comma directly before a closing
brace/bracket, and no excess opening braces or brackets,
`clean_llm_json (clean_llm_json s) = clean_llm_json s` exactly (hence
they parse to the same JSON value).  Without these provisos a second
cleaning pass can further rewrite a valid cleaned output and even
break it (see the counterexample).
-/
theorem C3_clean_idempotent_on_clean_arrays (s : Str)
    (h1 : isPrefOf (S "[") (clean_llm_json s) = true)
    (h2 : isPrefOf (S "]") (clean_llm_json s).reverse = true)
    (h3 : hasSub [bsChar, dqChar] (clean_llm_json s) = false)
    (h4 : hasSub (S "None") (clean_llm_json s) = false)
    (h5 : hasSub (S "True") (clean_llm_json s) = false)
    (h6 : hasSub (S "False") (clean_llm_json s) = false)
    (h7 : hasCommaCloser (clean_llm_json s) = false)
    (h8 : countChar (clean_llm_json s) lbChar ≤ countChar (clean_llm_json s) rbChar)
    (h9 : countChar (clean_llm_json s) '[' ≤ countChar (clean_llm_json s) ']') :
    clean_llm_json (clean_llm_json s) = clean_llm_json s :=
  clean_llm_json_fixed h1 h2 h3 h4 h5 h6 h7 h8 h9

/-- The input of the C3 counterexample: the seven characters
quote, `a`, backslash, backslash, quote, `b`, quote. -/
def ce3 : Str := [dqChar, 'a', bsChar, bsChar, dqChar, 'b', dqChar]

/--
C3 (counterexample): for the 7-character input `"a\\"b"`,
`clean_llm_json` produces `"a\"b"`, which parses as valid JSON (the
string `a"b`); but applying `clean_llm_json` a second time unescapes
the `\"` again, yielding `"a"b"`, which no longer parses as JSON at
all — so re-cleaning a string whose cleaned form is valid JSON is not
semantics-preserving.
-/
theorem C3_counterexample :
    jsonParse (clean_llm_json ce3) = some (Json.str ['a', dqChar, 'b']) ∧
    jsonParse (clean_llm_json (clean_llm_json ce3)) = none := by
  exact ⟨rfl, rfl⟩

/-- Witness for C3 at `s = "[true]"`, a fixed point of the cleaner. -/
theorem C3_witness :
    clean_llm_json (clean_llm_json (S "[true]")) = clean_llm_json (S "[true]") :=
  C3_clean_idempotent_on_clean_arrays (S "[true]") (by decide) (by decide)
    (by decide) (by decide) (by decide) (by decide) (by decide) (by decide)
    (by decide)

/-! ### Enrichment (backend/use_case/use_case_enrichment.py)

The two text-mining helpers `extract_optional_features` and
`extract_error_cases` drive free-form regexes over the source text via
`re.findall`/`re.finditer`; those stdlib calls are modelled as an
explicit oracle giving, per pattern index, the matched group tuples
(each pattern's group count is fixed by its regex: the first error
pattern captures two groups, the `timeout` pattern captures none, all
other patterns capture one).  The surrounding logic — templates,
length filters, keyword fallbacks via substring tests, deduplication,
caps — is translated from the source.  Python exceptions (the
`NameError` on `error_case` when the zero-group `timeout` pattern
matches before any other error pattern, and the `IndexError` of
`title.split()[0]` on a non-empty all-whitespace title) are modelled
with `Except`.
-/

structure RegexOracles where
  optFind : Nat → Str → List Str
  errFind2 : Str → List (Str × Str)
  errFind1 : Nat → Str → List Str
  errFind0 : Str → Nat

/-- Python `str.split()` (whitespace split, empty fields dropped). -/
def pySplitWs (s : Str) : List Str :=
  (splitIf isPySpace s).filter fun w => !w.isEmpty

/-- `title.split()[0] if title else "User"`. -/
def actorOf (title : Str) : Except Str Str :=
  if title.isEmpty then .ok (S "User")
  else
    match pySplitWs title with
    | a :: _ => .ok a
    | [] => .error (S "IndexError: list index out of range")

/-- Python `str.capitalize` (first char uppercased, rest lowered). -/
def pyCapitalize (s : Str) : Str :=
  match s with
  | [] => []
  | c :: r => c.toUpper :: pyLower r

def upperFirst (s : Str) : Str :=
  match s with
  | [] => []
  | c :: r => c.toUpper :: r

def dedupByGo (key : Str → Str) (seen : List Str) : List Str → List Str
  | [] => []
  | x :: r =>
      if key x ∈ seen then dedupByGo key seen r
      else x :: dedupByGo key (key x :: seen) r

/-- First-occurrence deduplication by a key (the `seen`-set loops of
the enrichment module). -/
def dedupBy (key : Str → Str) (l : List Str) : List Str := dedupByGo key [] l

/-- `extract_optional_features` (use_case_enrichment.py); the `title`
parameter is unused by the source as well. -/
def extract_optional_features (o : RegexOracles) (text title : Str) : List Str :=
  let text_lower := pyLower text
  let fromPatterns :=
    (List.range 5).foldl
      (fun acc i =>
        (o.optFind i text_lower).foldl
          (fun acc2 m =>
            let feature := pyStrip m
            if 10 < feature.length ∧ feature.length < 100 then
              let feature := upperFirst feature
              if isPrefOf (S "can ") (pyLower feature) then
                acc2 ++ [S "User " ++ feature]
              else acc2 ++ [S "User can " ++ feature]
            else acc2)
          acc)
      []
  let keyword_features :=
    [(S "filter", S "User can apply filters to refine results"),
     (S "sort", S "User can sort results by different criteria"),
     (S "export", S "User can export data in various formats"),
     (S "customize", S "User can customize display settings"),
     (S "save", S "User can save searches for later use")]
  let withKeywords :=
    keyword_features.foldl
      (fun acc kv =>
        if hasSub kv.1 text_lower ∧ kv.2 ∉ acc then acc ++ [kv.2] else acc)
      fromPatterns
  (dedupBy pyLower withKeywords).take 4

def fmtE0 (g0 g1 : Str) : Str := S "If " ++ g0 ++ S ": " ++ g1

def fmtE1 (g0 : Str) : Str :=
  S "If " ++ g0 ++ S " is unavailable: System displays message and suggests alternatives"

def fmtE2 (g0 : Str) : Str :=
  S "If no " ++ g0 ++ S ": System notifies user and provides guidance"

def fmtE3 (g0 : Str) : Str :=
  S "If unable to " ++ g0 ++ S ": System logs issue and notifies administrator"

def fmtE4 (g0 : Str) : Str := S "If cannot " ++ g0 ++ S ": System provides fallback option"

def fmtE6 (g0 : Str) : Str :=
  S "If invalid " ++ g0 ++ S ": System displays validation error with specific guidance"

def fmtE7 (g0 : Str) : Str := S "If " ++ g0 ++ S ": System handles the failure appropriately"

/-- One match of a one-group error pattern: `error_case` is rebound and
appended when shorter than 150 characters. -/
def ecStep1 (fmt : Str → Str) (st : Option Str × List Str) (g : Str) :
    Option Str × List Str :=
  let ec := fmt (pyStrip g)
  (some ec, if ec.length < 150 then st.2 ++ [ec] else st.2)

/-- One match of the two-group error pattern. -/
def ecStep2 (st : Option Str × List Str) (g : Str × Str) : Option Str × List Str :=
  let ec := fmtE0 (pyStrip g.1) (pyStrip g.2)
  (some ec, if ec.length < 150 then st.2 ++ [ec] else st.2)

/-- One match of the zero-group `timeout` pattern: `groups()` has
length 0, so `error_case` is not rebound; the subsequent
`len(error_case)` test raises `NameError` when no earlier pattern has
bound it, and otherwise re-appends the previous `error_case`. -/
def ecStep0 (st : Option Str × List Str) : Except Str (Option Str × List Str) :=
  match st.1 with
  | none => .error (S "NameError: name error_case is not defined")
  | some ec => .ok (some ec, if ec.length < 150 then st.2 ++ [ec] else st.2)

def ecFold0 : Nat → (Option Str × List Str) → Except Str (Option Str × List Str)
  | 0, st => .ok st
  | n + 1, st =>
      match ecStep0 st with
      | .error e => .error e
      | .ok st2 => ecFold0 n st2

/-- `extract_error_cases` (use_case_enrichment.py). -/
def extract_error_cases (o : RegexOracles) (text title : Str) :
    Except Str (List Str) := do
  let st1 := (o.errFind2 text).foldl ecStep2 (none, [])
  let st2 := (o.errFind1 1 text).foldl (ecStep1 fmtE1) st1
  let st3 := (o.errFind1 2 text).foldl (ecStep1 fmtE2) st2
  let st4 := (o.errFind1 3 text).foldl (ecStep1 fmtE3) st3
  let st5 := (o.errFind1 4 text).foldl (ecStep1 fmtE4) st4
  let st6 ← ecFold0 (o.errFind0 text) st5
  let st7 := (o.errFind1 6 text).foldl (ecStep1 fmtE6) st6
  let st8 := (o.errFind1 7 text).foldl (ecStep1 fmtE7) st7
  let error_cases := st8.2
  let keyword_errors :=
    [(S "fail", S "If operation fails: System displays error message and logs the failure"),
     (S "error", S "If error occurs: System shows user-friendly message and notifies support"),
     (S "unavailable", S "If service is unavailable: System retries and provides status updates"),
     (S "invalid", S "If invalid input: System highlights errors and guides correction")]
  let error_cases :=
    if error_cases.isEmpty then
      keyword_errors.foldl
        (fun acc kv =>
          if hasSub kv.1 (pyLower text) ∧ kv.2 ∉ acc then acc ++ [kv.2] else acc)
        error_cases
    else error_cases
  let error_cases ←
    if error_cases.isEmpty then do
      let actor ← actorOf title
      pure [S "If validation fails: System displays specific error message and prompts "
              ++ actor ++ S " to correct input",
            S "If system error occurs: System logs error, notifies support team, and displays user-friendly message",
            S "If network timeout: System automatically retries and informs user of delay"]
    else pure error_cases
  pure ((dedupBy (fun e => (pyLower e).take 50) error_cases).take 4)

/-- The title step of `enrich_use_case`: a title of fewer than 3 words
gets the primary stakeholder (or "User") prepended; the helper's local
`title` variable is not rebound, so all later steps keep using the
original title. -/
def enrichTitle (use_case : UseCase) : Str :=
  if (pySplitWs use_case.title).length < 3 then
    match use_case.stakeholders with
    | s0 :: _ =>
        (if s0 = S "System" then S "User" else s0) ++ [' '] ++ use_case.title
    | [] => use_case.title
  else use_case.title

def addDefaults (existing : List Str) : List Str → List Str → List Str
  | [], acc => acc
  | d :: rest, acc =>
      if pyLower d ∉ existing then
        let acc2 := acc ++ [d]
        if 2 ≤ acc2.length then acc2 else addDefaults existing rest acc2
      else addDefaults existing rest acc

/-- The preconditions step of `enrich_use_case`: when fewer than 2
preconditions exist, prepend up to 2 generic defaults whose lowercase
text is not already present (comparing against the truthy originals),
then re-append the truthy originals. -/
def enrichPre (preconditions : List Str) : List Str :=
  if preconditions.isEmpty ∨ preconditions.length < 2 then
    let default_preconditions :=
      [S "User is authenticated and authorized",
       S "System is operational and available",
       S "Required data and services are accessible"]
    let existing := (preconditions.filter fun p => !p.isEmpty).map pyLower
    addDefaults existing default_preconditions [] ++
      preconditions.filter fun p => !p.isEmpty
  else preconditions

/-- The local action-verb list of the main-flow step. -/
def mfActionVerbs : List Str :=
  [S "view", S "search", S "add", S "create", S "update", S "delete",
   S "download", S "upload", S "login", S "register", S "pay", S "submit",
   S "confirm", S "verify", S "select", S "filter", S "manage", S "configure"]

def mergeFlow : List Str → List Str → List Str
  | cur, [] => cur
  | cur, step :: rest =>
      if 5 ≤ cur.length then cur
      else if cur.any fun ex => hasSub ((pyLower step).take 20) ((pyLower ex).take 20) then
        mergeFlow cur rest
      else mergeFlow (cur ++ [step]) rest

/-- The main-flow step of `enrich_use_case`. -/
def enrichMF (title : Str) (main_flow : List Str) : Except Str (List Str) :=
  if main_flow.isEmpty ∨ main_flow.length < 4 then do
    let title_lower := pyLower title
    let action := ((mfActionVerbs.find? fun v => hasSub v title_lower).getD
      (S "perform action"))
    let actor ← actorOf title
    let comprehensive_flow :=
      [actor ++ S " navigates to the relevant section",
       actor ++ S " initiates " ++ action ++ S " operation",
       S "System validates the request and user permissions",
       S "System processes the " ++ action ++ S " request",
       S "System updates relevant data and logs the action",
       S "System confirms successful completion",
       actor ++ S " receives confirmation message"]
    if main_flow.isEmpty then pure (comprehensive_flow.take 6)
    else pure (mergeFlow main_flow comprehensive_flow)
  else pure main_flow

/-- The sub-flows step of `enrich_use_case`: fewer than 2 sub-flows
are wholly replaced by text-mined optional features, or by a generic
actor-parameterized list when none are found. -/
def enrichSF (o : RegexOracles) (title original_text : Str) (sub_flows : List Str) :
    Except Str (List Str) :=
  if sub_flows.isEmpty ∨ sub_flows.length < 2 then do
    let optional_features := extract_optional_features o original_text title
    if !optional_features.isEmpty then pure optional_features
    else do
      let actor ← actorOf title
      pure [actor ++ S " can view additional details and information",
            actor ++ S " can customize settings and preferences",
            actor ++ S " can save work and return later"]
  else pure sub_flows

/-- The alternate-flows step of `enrich_use_case`. -/
def enrichAF (o : RegexOracles) (title original_text : Str)
    (alternate_flows : List Str) : Except Str (List Str) :=
  if alternate_flows.isEmpty ∨ alternate_flows.length < 2 then do
    let error_cases ← extract_error_cases o original_text title
    if !error_cases.isEmpty then pure error_cases
    else do
      let actor ← actorOf title
      pure [S "If validation fails: System displays specific error message and prompts "
              ++ actor ++ S " to correct input",
            S "If system timeout: System retries operation automatically and notifies "
              ++ actor,
            S "If " ++ actor ++ S " lacks required permissions: System denies access and logs attempt",
            S "If network error: System caches request and retries when connection is restored"]
  else pure alternate_flows

/-- The outcomes step of `enrich_use_case`. -/
def enrichOC (title : Str) (outcomes : List Str) : List Str :=
  if outcomes.isEmpty ∨ outcomes.length < 1 then
    [title ++ S " is completed successfully",
     S "System state is updated appropriately",
     S "All changes are logged for audit purposes"]
  else outcomes

def addStakeholders (existing : List Str) : List Str → List Str → List Str
  | [], acc => acc
  | s :: rest, acc =>
      if pyLower s ∉ existing then
        let acc2 := acc ++ [s]
        if 3 ≤ acc2.length then acc2 else addStakeholders existing rest acc2
      else addStakeholders existing rest acc

/-- The stakeholders step of `enrich_use_case`. -/
def enrichST (title : Str) (stakeholders : List Str) : Except Str (List Str) :=
  if stakeholders.isEmpty ∨ stakeholders.length < 2 then do
    let actor ← actorOf title
    let tl := pyLower title
    let d0 := [actor, S "System", S "Database"]
    let d1 := if hasSub (S "admin") tl ∨ hasSub (S "manage") tl then
                d0 ++ [S "Administrator"] else d0
    let d2 := if hasSub (S "pay") tl ∨ hasSub (S "purchase") tl then
                d1 ++ [S "Payment Gateway", S "Financial System"] else d1
    let d3 := if hasSub (S "email") tl ∨ hasSub (S "notification") tl then
                d2 ++ [S "Email Service"] else d2
    let d4 := if hasSub (S "report") tl ∨ hasSub (S "analytics") tl then
                d3 ++ [S "Analytics System"] else d3
    pure (addStakeholders (stakeholders.map pyLower) d4 stakeholders)
  else pure stakeholders

/-- `enrich_use_case` (use_case_enrichment.py): the per-field steps in
source order; the first raising step aborts (modelling Python
exception propagation). -/
def enrich_use_case (o : RegexOracles) (use_case : UseCase) (original_text : Str) :
    Except Str UseCase := do
  let mf2 ← enrichMF use_case.title use_case.main_flow
  let sf2 ← enrichSF o use_case.title original_text use_case.sub_flows
  let af2 ← enrichAF o use_case.title original_text use_case.alternate_flows
  let st2 ← enrichST use_case.title use_case.stakeholders
  pure { title := enrichTitle use_case
         preconditions := enrichPre use_case.preconditions
         main_flow := mf2
         sub_flows := sf2
         alternate_flows := af2
         outcomes := enrichOC use_case.title use_case.outcomes
         stakeholders := st2 }

lemma mergeFlow_extends : ∀ (steps cur : List Str), ∃ ext, mergeFlow cur steps = cur ++ ext := by
  intro steps
  induction steps with
  | nil => intro cur; exact ⟨[], by simp [mergeFlow]⟩
  | cons step rest ih =>
    intro cur
    unfold mergeFlow
    by_cases h5 : 5 ≤ cur.length
    · simp only [h5, if_true, ite_true]
      exact ⟨[], by simp⟩
    · simp only [h5, if_false, ite_false]
      by_cases hdup : cur.any fun ex => hasSub ((pyLower step).take 20) ((pyLower ex).take 20)
      · simp only [hdup, if_true, ite_true]
        exact ih cur
      · rw [Bool.not_eq_true] at hdup
        simp only [hdup, Bool.false_eq_true, if_false, ite_false]
        obtain ⟨ext, hext⟩ := ih (cur ++ [step])
        exact ⟨[step] ++ ext, by rw [hext, List.append_assoc]⟩

lemma addStakeholders_extends :
    ∀ (ds : List Str) (ex acc : List Str), ∃ ext, addStakeholders ex ds acc = acc ++ ext := by
  intro ds
  induction ds with
  | nil => intro ex acc; exact ⟨[], by simp [addStakeholders]⟩
  | cons d rest ih =>
    intro ex acc
    unfold addStakeholders
    by_cases hmem : pyLower d ∈ ex
    · simp only [hmem, if_true, ite_true, if_false, ite_false]
      simpa using ih ex acc
    · simp only [hmem, if_false, ite_false, not_false_iff, if_true, ite_true]
      by_cases h3 : 3 ≤ (acc ++ [d]).length
      · simp only [h3, if_true, ite_true]
        exact ⟨[d], rfl⟩
      · simp only [h3, if_false, ite_false]
        obtain ⟨ext, hext⟩ := ih ex (acc ++ [d])
        exact ⟨[d] ++ ext, by rw [hext, List.append_assoc]⟩

lemma enrichPre_len (pre : List Str) : pre.length ≤ (enrichPre pre).length := by
  unfold enrichPre
  split
  · next hcond =>
    match pre, hcond with
    | [], _ => simp
    | [p], _ =>
      by_cases hp : p.isEmpty
      · rw [List.isEmpty_iff] at hp
        subst hp
        decide
      · rw [Bool.not_eq_true] at hp
        simp only [List.filter_cons, List.filter_nil, hp, Bool.not_false, if_true, ite_true]
        simp only [List.length_append, List.length_cons, List.length_nil]
        omega
    | p :: q :: r, hcond =>
      exfalso
      rcases hcond with h | h
      · simp [List.isEmpty] at h
      · simp only [List.length_cons] at h
        omega
  · exact Nat.le_refl _

lemma enrichPre_mem (pre : List Str) (p : Str) (hp : p ∈ pre) (hne : p.isEmpty = false) :
    p ∈ enrichPre pre := by
  unfold enrichPre
  split
  · apply List.mem_append_right
    rw [List.mem_filter]
    exact ⟨hp, by rw [hne]; rfl⟩
  · exact hp

lemma enrichOC_len (ti : Str) (oc : List Str) : oc.length ≤ (enrichOC ti oc).length := by
  unfold enrichOC
  split
  · next hcond =>
    match oc, hcond with
    | [], _ => simp
    | o :: r, hcond =>
      exfalso
      rcases hcond with h | h
      · simp [List.isEmpty] at h
      · simp at h
  · exact Nat.le_refl _

lemma enrichOC_mem (ti : Str) (oc : List Str) (p : Str) (hp : p ∈ oc) :
    p ∈ enrichOC ti oc := by
  unfold enrichOC
  split
  · next hcond =>
    have hnil : oc = [] := by
      rcases hcond with h | h
      · exact List.isEmpty_iff.mp h
      · cases oc with
        | nil => rfl
        | cons a r => simp only [List.length_cons] at h; omega
    subst hnil
    cases hp
  · exact hp

lemma enrichMF_ok (ti : Str) (mf r : List Str) (h : enrichMF ti mf = .ok r) :
    mf.length ≤ r.length ∧ ∀ s ∈ mf, s ∈ r := by
  unfold enrichMF at h
  split at h
  · next hcond =>
    simp only [bind, Except.bind] at h
    cases hact : actorOf ti with
    | error e => rw [hact] at h; cases h
    | ok actor =>
      rw [hact] at h
      dsimp only at h
      split at h
      · next hemp =>
        rw [List.isEmpty_iff] at hemp
        subst hemp
        cases h
        exact ⟨by simp, by intro s hs; cases hs⟩
      · cases h
        obtain ⟨ext, hext⟩ := mergeFlow_extends _ mf
        rw [hext]
        exact ⟨by simp, fun s hs => List.mem_append_left _ hs⟩
  · cases h
    exact ⟨Nat.le_refl _, fun s hs => hs⟩

lemma enrichSF_ok (o : RegexOracles) (ti t : Str) (sf r : List Str)
    (h : enrichSF o ti t sf = .ok r) : sf.length ≤ r.length := by
  unfold enrichSF at h
  split at h
  · next hcond =>
    have hsf : sf.length ≤ 1 := by
      rcases hcond with h1 | h1
      · rw [List.isEmpty_iff] at h1; subst h1; simp
      · omega
    dsimp only at h
    split at h
    · next hne =>
      cases h
      have hpos : 0 < (extract_optional_features o t ti).length := by
        rw [Bool.not_eq_eq_eq_not, Bool.not_true, List.isEmpty_eq_false_iff_exists_mem] at hne
        obtain ⟨x, hx⟩ := hne
        exact List.length_pos_of_mem hx
      omega
    · simp only [bind, Except.bind] at h
      cases hact : actorOf ti with
      | error e => rw [hact] at h; cases h
      | ok actor =>
        rw [hact] at h
        cases h
        simp only [List.length_cons, List.length_nil]
        omega
  · cases h
    exact Nat.le_refl _

lemma enrichAF_ok (o : RegexOracles) (ti t : Str) (af r : List Str)
    (h : enrichAF o ti t af = .ok r) : af.length ≤ r.length := by
  unfold enrichAF at h
  split at h
  · next hcond =>
    have haf : af.length ≤ 1 := by
      rcases hcond with h1 | h1
      · rw [List.isEmpty_iff] at h1; subst h1; simp
      · omega
    simp only [bind, Except.bind] at h
    cases hec : extract_error_cases o t ti with
    | error e => rw [hec] at h; cases h
    | ok ecs =>
      rw [hec] at h
      dsimp only at h
      split at h
      · next hne =>
        cases h
        rw [Bool.not_eq_eq_eq_not, Bool.not_true,
          List.isEmpty_eq_false_iff_exists_mem] at hne
        obtain ⟨x, hx⟩ := hne
        have hpos := List.length_pos_of_mem hx
        omega
      · cases hact : actorOf ti with
        | error e => rw [hact] at h; cases h
        | ok actor =>
          rw [hact] at h
          dsimp only at h
          cases h
          simp only [List.length_cons, List.length_nil]
          omega
  · cases h
    exact Nat.le_refl _

lemma enrichST_ok (ti : Str) (st r : List Str) (h : enrichST ti st = .ok r) :
    st.length ≤ r.length ∧ ∀ s ∈ st, s ∈ r := by
  unfold enrichST at h
  split at h
  · simp only [bind, Except.bind] at h
    cases hact : actorOf ti with
    | error e => rw [hact] at h; cases h
    | ok actor =>
      rw [hact] at h
      dsimp only at h
      cases h
      obtain ⟨ext, hext⟩ := addStakeholders_extends _ (st.map pyLower) st
      rw [hext]
      exact ⟨by simp, fun s hs => List.mem_append_left _ hs⟩
  · cases h
    exact ⟨Nat.le_refl _, fun s hs => hs⟩

lemma enrich_ok_destruct (o : RegexOracles) (x : UseCase) (t : Str) (y : UseCase)
    (h : enrich_use_case o x t = .ok y) :
    ∃ mf2 sf2 af2 st2,
      enrichMF x.title x.main_flow = .ok mf2 ∧
      enrichSF o x.title t x.sub_flows = .ok sf2 ∧
      enrichAF o x.title t x.alternate_flows = .ok af2 ∧
      enrichST x.title x.stakeholders = .ok st2 ∧
      y = { title := enrichTitle x
            preconditions := enrichPre x.preconditions
            main_flow := mf2
            sub_flows := sf2
            alternate_flows := af2
            outcomes := enrichOC x.title x.outcomes
            stakeholders := st2 } := by
  unfold enrich_use_case at h
  simp only [bind, Except.bind] at h
  cases hmf : enrichMF x.title x.main_flow with
  | error e => rw [hmf] at h; cases h
  | ok mf2 =>
    rw [hmf] at h
    dsimp only at h
    cases hsf : enrichSF o x.title t x.sub_flows with
    | error e => rw [hsf] at h; cases h
    | ok sf2 =>
      rw [hsf] at h
      dsimp only at h
      cases haf : enrichAF o x.title t x.alternate_flows with
      | error e => rw [haf] at h; cases h
      | ok af2 =>
        rw [haf] at h
        dsimp only at h
        cases hst : enrichST x.title x.stakeholders with
        | error e => rw [hst] at h; cases h
        | ok st2 =>
          rw [hst] at h
          dsimp only at h
          cases h
          exact ⟨mf2, sf2, af2, st2, rfl, rfl, rfl, rfl, rfl⟩

/-- Single enrichment pass: no list field ever loses length, and the
elements of `main_flow`, `outcomes`, `stakeholders` and the non-empty
elements of `preconditions` are preserved. -/
lemma enrich_single_pass (o : RegexOracles) (x : UseCase) (t : Str) (y : UseCase)
    (h : enrich_use_case o x t = .ok y) :
    (x.preconditions.length ≤ y.preconditions.length ∧
      x.main_flow.length ≤ y.main_flow.length ∧
      x.sub_flows.length ≤ y.sub_flows.length ∧
      x.alternate_flows.length ≤ y.alternate_flows.length ∧
      x.outcomes.length ≤ y.outcomes.length ∧
      x.stakeholders.length ≤ y.stakeholders.length) ∧
    ((∀ s ∈ x.main_flow, s ∈ y.main_flow) ∧
      (∀ s ∈ x.outcomes, s ∈ y.outcomes) ∧
      (∀ s ∈ x.stakeholders, s ∈ y.stakeholders) ∧
      (∀ s ∈ x.preconditions, s.isEmpty = false → s ∈ y.preconditions)) := by
  obtain ⟨mf2, sf2, af2, st2, hmf, hsf, haf, hst, rfl⟩ := enrich_ok_destruct o x t y h
  obtain ⟨hmfl, hmfm⟩ := enrichMF_ok _ _ _ hmf
  obtain ⟨hstl, hstm⟩ := enrichST_ok _ _ _ hst
  refine ⟨⟨enrichPre_len _, hmfl, enrichSF_ok _ _ _ _ _ hsf,
    enrichAF_ok _ _ _ _ _ haf, enrichOC_len _ _, hstl⟩,
    hmfm, enrichOC_mem _ _, hstm, ?_⟩
  intro s hs hne
  exact enrichPre_mem _ s hs hne

/--
C4 (amended): enrichment never shrinks any of the six list fields — in
particular, for any use case `x`, source text `t` and regex oracle,
when both passes succeed the second pass `enrich(enrich(x,t),t)` has,
for every list field, length ≥ the length after one pass — and every
string element of `main_flow`, `outcomes` and `stakeholders`, and
every non-empty string element of `preconditions`, present before
enrichment is still present after; however `sub_flows` and
`alternate_flows` holding fewer than 2 entries are wholly replaced by
mined or generic defaults, so their elements (and empty-string
preconditions) need not be preserved (see the counterexample).
-/
theorem C4_enrichment_monotone_growth (o : RegexOracles) (x : UseCase) (t : Str)
    (y z : UseCase) (hy : enrich_use_case o x t = .ok y)
    (hz : enrich_use_case o y t = .ok z) :
    (y.preconditions.length ≤ z.preconditions.length ∧
      y.main_flow.length ≤ z.main_flow.length ∧
      y.sub_flows.length ≤ z.sub_flows.length ∧
      y.alternate_flows.length ≤ z.alternate_flows.length ∧
      y.outcomes.length ≤ z.outcomes.length ∧
      y.stakeholders.length ≤ z.stakeholders.length) ∧
    ((∀ s ∈ x.main_flow, s ∈ y.main_flow) ∧
      (∀ s ∈ x.outcomes, s ∈ y.outcomes) ∧
      (∀ s ∈ x.stakeholders, s ∈ y.stakeholders) ∧
      (∀ s ∈ x.preconditions, s.isEmpty = false → s ∈ y.preconditions)) :=
  ⟨(enrich_single_pass o y t z hz).1, (enrich_single_pass o x t y hy).2⟩

/-- Regex oracle for an empty (or match-free) source text: no pattern
of the enrichment helpers matches. -/
def emptyOracles : RegexOracles :=
  { optFind := fun _ _ => []
    errFind2 := fun _ => []
    errFind1 := fun _ _ => []
    errFind0 := fun _ => 0 }

/-- The C4 counterexample input: a use case with a single custom
sub-flow (all other fields rich enough to be left untouched). -/
def ce4uc : UseCase :=
  { title := S "User submits the weekly report"
    preconditions := [S "User is logged in", S "Report exists"]
    main_flow := [S "User opens the form", S "User fills fields",
                  S "User submits the form", S "System stores the report"]
    sub_flows := [S "Custom subflow A"]
    alternate_flows := [S "If invalid: System shows error",
                        S "If offline: System queues the report"]
    outcomes := [S "Report stored"]
    stakeholders := [S "User", S "System"] }

/-- The result of one enrichment pass on `ce4uc` with empty source
text: the single custom sub-flow is replaced wholesale by the three
generic sub-flows. -/
def ce4res : UseCase :=
  { ce4uc with
    sub_flows := [S "User can view additional details and information",
                  S "User can customize settings and preferences",
                  S "User can save work and return later"] }

/--
C4 (counterexample): enrichment is not additive-only — for the use
case `ce4uc` whose `sub_flows` holds the single entry
"Custom subflow A", `enrich_use_case` with empty source text succeeds
and returns a record whose `sub_flows` no longer contains that entry:
any `sub_flows` (or `alternate_flows`) list with fewer than 2 elements
is wholly replaced, not extended.
-/
theorem C4_counterexample :
    enrich_use_case emptyOracles ce4uc (S "") = .ok ce4res ∧
    S "Custom subflow A" ∈ ce4uc.sub_flows ∧
    S "Custom subflow A" ∉ ce4res.sub_flows := by
  refine ⟨by rfl, by decide, by decide⟩

/-- Witness for C4: both enrichment passes on `ce4uc` succeed (the
second pass is the identity here), lengths do not shrink and
`main_flow` elements persist. -/
theorem C4_witness :
    S "User opens the form" ∈ ce4res.main_flow ∧
    ce4res.sub_flows.length ≤ ce4res.sub_flows.length := by
  have happ := C4_enrichment_monotone_growth emptyOracles ce4uc (S "") ce4res ce4res
    (by rfl) (by rfl)
  exact ⟨happ.2.1 (S "User opens the form") (by decide), happ.1.2.2.1⟩

/-- Witness for C5 at the exact 0.850 boundary. -/
theorem C5_witness :
    parse_dedup_store (fun _ => [(850 / 1000 : ℚ)])
        [⟨S "User logs in", [], [], [], [], [], []⟩] =
      ([(S "duplicate_skipped", S "User logs in")], []) :=
  (C5_duplicate_threshold_boundary.2.2 ⟨S "User logs in", [], [], [], [], [], []⟩).1

/-! ### The extraction engine (backend/managers/use_case_manager.py)

`extract_use_cases_single_stage` drives one LLM call and parses its
output.  External collaborators are modelled as explicitly quantified
parameters: `pipeOutcome` is the outcome of the `pipe(...)` call
(`Except.error` models any exception raised while generating or
indexing `outputs[0]["generated_text"]`), and `loads` models
`json.loads` applied to the cleaned string (`Except.error` models
`json.JSONDecodeError`).  The prompt built by
`uc_single_stage_extract_queryGen` (pure f-string assembly over
`(max_use_cases, memory_context, text)`) only reaches the LLM, whose
entire behaviour is universally quantified, so the prompt text itself
does not appear in the model.  The fallback extractor's
`re.findall(pattern, sentence_lower, re.IGNORECASE)` calls (three
patterns per actor, each with two capture groups) are modelled by the
oracle `fb : actor-index → pattern-index → sentence → matches`.
-/

/-- `ensure_string_list` (backend/utilities/misc.py). -/
def ensure_string_list (value : Json) : List Str :=
  match value with
  | Json.arr jl =>
      jl.toList.foldl
        (fun acc item =>
          match item with
          | Json.str s => acc ++ [s]
          | Json.arr l2 => acc ++ l2.toList.map pyStr
          | Json.obj o => acc ++ [jsonDumps (Json.obj o)]
          | w => if pyTruthy w then acc ++ [pyStr w] else acc)
        []
  | Json.str s => if (pyStrip s).isEmpty then [] else [s]
  | w => if pyTruthy w then [pyStr w] else []

abbrev FbOracle := Nat → Nat → Str → List (Str × Str)

/-- The words of the object-trimming regex
`\s+(and|or|but|if|when|after|before|to|that|which|for now).*$`. -/
def fbStopWords : List Str :=
  [S "and", S "or", S "but", S "if", S "when", S "after", S "before",
   S "to", S "that", S "which", S "for now"]

/-- `re.sub(r"\s+(and|or|but|if|when|after|before|to|that|which|for now).*$", "", obj)`
(single-line ASCII model): truncate at the leftmost whitespace run
directly followed by a stop word. -/
def objTruncate (obj : Str) : Str :=
  match (List.range obj.length).find? (fun i =>
    isPySpace (obj.getD i ' ') &&
      fbStopWords.any fun w => isPrefOf w ((obj.drop i).dropWhile isPySpace)) with
  | some i => obj.take i
  | none => obj

/-- The synthetic use case built by the fallback extractor for an
(actor, verb, object) triple. -/
def fbUseCase (actor verb obj title : Str) : UseCase :=
  { title := title
    preconditions := [pyCapitalize actor ++ S " is authenticated and authorized",
                      S "System is operational and responsive"]
    main_flow := [pyCapitalize actor ++ S " navigates to relevant section",
                  pyCapitalize actor ++ S " initiates " ++ verb ++ S " action",
                  S "System validates request",
                  S "System processes " ++ obj,
                  S "System confirms completion to " ++ actor,
                  pyCapitalize actor ++ S " receives confirmation"]
    sub_flows := [pyCapitalize actor ++ S " can view additional details",
                  pyCapitalize actor ++ S " can customize preferences"]
    alternate_flows := [S "If validation fails: System displays error and prompts correction",
                        S "If system timeout: System retries and notifies " ++ actor]
    outcomes := [title ++ S " completed successfully",
                 S "System state is updated"]
    stakeholders := [pyCapitalize actor, S "System"] }

/-- Processing of one regex match (verb, object) of the fallback
extractor; once 15 use cases are collected all loops break, modelled
by the guard at the head. -/
def fbProcessMatch (actor : Str) (st : List Str × List UseCase) (m : Str × Str) :
    List Str × List UseCase :=
  if 15 ≤ st.2.length then st
  else
    let verb := pyStrip m.1
    let obj0 := (pyStrip m.2).take 80
    let obj := pyStrip (objTruncate obj0)
    if obj.length < 5 ∨ 100 < obj.length then st
    else if verb ∉ ACTION_VERBS then st
    else
      let conjugated := verb
      let title := pyCapitalize actor ++ [' '] ++ conjugated ++ [' '] ++ obj
      let title_key := pyStrip (pyLower title)
      if title_key ∈ st.1 ∨ title.length < 15 then st
      else (st.1 ++ [title_key], st.2 ++ [fbUseCase actor verb obj title])

/-- `extract_with_smart_fallback` (use_case_manager.py): sentences
longer than 20 characters, three patterns per actor, candidate
filtering, title deduplication, hard cap of 15. -/
def extract_with_smart_fallback (fb : FbOracle) (text : Str) : List UseCase :=
  let sentences := ((splitIf (fun c => c = '.' || c = '!' || c = '?') text).map
    pyStrip).filter fun s => 20 < s.length
  (sentences.foldl
    (fun st sentence =>
      let sentence_lower := pyLower sentence
      (List.range ACTORS.length).foldl
        (fun st2 ai =>
          let actor := ACTORS.getD ai []
          (List.range 3).foldl
            (fun st3 pi =>
              (fb ai pi sentence_lower).foldl (fbProcessMatch actor) st3)
            st2)
        st)
    ([], [])).2

/-- The per-item validation/enrichment loop of
`extract_use_cases_single_stage` over the decoded JSON array (items
enumerated from 1 for the default title); a non-dict item or an item
with a short title is skipped, a short main flow triggers an extra
enrichment pass, and any enrichment exception propagates to the
caller's handler. -/
def processItems (o : RegexOracles) (text : Str) :
    Nat → List Json → Except Str (List UseCase)
  | _, [] => .ok []
  | idx, item :: rest =>
    match item with
    | Json.obj kvs => do
        let validated : UseCase :=
          { title := pyStrip (pyStr ((jget kvs (S "title")).getD
              (Json.str (S "Use Case " ++ natStr idx))))
            preconditions := ensure_string_list ((jget kvs (S "preconditions")).getD
              (Json.arr .nil))
            main_flow := ensure_string_list ((jget kvs (S "main_flow")).getD
              (Json.arr .nil))
            sub_flows := ensure_string_list ((jget kvs (S "sub_flows")).getD
              (Json.arr .nil))
            alternate_flows := ensure_string_list ((jget kvs (S "alternate_flows")).getD
              (Json.arr .nil))
            outcomes := ensure_string_list ((jget kvs (S "outcomes")).getD
              (Json.arr .nil))
            stakeholders := ensure_string_list ((jget kvs (S "stakeholders")).getD
              (Json.arr .nil)) }
        if validated.title.length < 10 then processItems o text (idx + 1) rest
        else do
          let validated ←
            if validated.main_flow.length < 3 then enrich_use_case o validated text
            else pure validated
          let validated ← enrich_use_case o validated text
          let tail ← processItems o text (idx + 1) rest
          pure (validated :: tail)
    | _ => processItems o text (idx + 1) rest

/-- `extract_use_cases_single_stage` (use_case_manager.py).  The
pre-`try` part (smart estimation, token budget, prompt rendering) is
total pure computation; everything inside the `try` routes any failure
to `extract_with_smart_fallback`. -/
def extract_use_cases_single_stage (pipeOutcome : Except Str Str)
    (loads : Str → Except Str Json) (o : RegexOracles) (fb : FbOracle)
    (text memory_context : Str) (max_use_cases : Option Nat) :
    Except Str (List UseCase) :=
  let max_uc : Nat := match max_use_cases with
                      | none => get_smart_max_use_cases text
                      | some m => m
  let _max_new_tokens := get_smart_token_budget text (Int.ofNat max_uc)
  match pipeOutcome with
  | .error _ => .ok (extract_with_smart_fallback fb text)
  | .ok generated_text =>
    let response := '[' :: pyStrip generated_text
    match findChar response '[', rfindChar response ']' with
    | some start_idx, some end_idx =>
      let json_str := (response.take (end_idx + 1)).drop start_idx
      let cleaned := clean_llm_json json_str
      match loads cleaned with
      | .error _ => .ok (extract_with_smart_fallback fb text)
      | .ok j =>
        match j with
        | Json.arr items =>
          match processItems o text 1 items.toList with
          | .error _ => .ok (extract_with_smart_fallback fb text)
          | .ok use_cases =>
            .ok (if max_uc + 2 < use_cases.length then use_cases.take max_uc
                 else use_cases)
        | _ => .ok (extract_with_smart_fallback fb text)
    | _, _ => .ok (extract_with_smart_fallback fb text)

/--
C1: for every string `text` and `memory_context` (and any behaviour of
the LLM pipeline call, of `json.loads`, and of the regex helpers),
`extract_use_cases_single_stage` always returns a list — it never
propagates an exception to its caller — and each failure mode (LLM
request failure, no `]` found in the completion (`[` is always found
since the code prepends one), JSON parse error, non-list JSON root,
or an exception inside the validation/enrichment loop) yields exactly
the deterministic fallback extractor's result.
-/
theorem C1_single_stage_total_with_fallback (pipeOutcome : Except Str Str)
    (loads : Str → Except Str Json) (o : RegexOracles) (fb : FbOracle)
    (text memory_context : Str) (muc : Option Nat) :
    (∃ l, extract_use_cases_single_stage pipeOutcome loads o fb
        text memory_context muc = .ok l) ∧
    (∀ e, pipeOutcome = .error e →
      extract_use_cases_single_stage pipeOutcome loads o fb text memory_context muc =
        .ok (extract_with_smart_fallback fb text)) ∧
    (∀ g, pipeOutcome = .ok g →
      rfindChar ('[' :: pyStrip g) ']' = none →
      extract_use_cases_single_stage pipeOutcome loads o fb text memory_context muc =
        .ok (extract_with_smart_fallback fb text)) ∧
    (∀ g s ei err, pipeOutcome = .ok g →
      findChar ('[' :: pyStrip g) '[' = some s →
      rfindChar ('[' :: pyStrip g) ']' = some ei →
      loads (clean_llm_json ((('[' :: pyStrip g).take (ei + 1)).drop s)) =
        .error err →
      extract_use_cases_single_stage pipeOutcome loads o fb text memory_context muc =
        .ok (extract_with_smart_fallback fb text)) ∧
    (∀ g s ei j, pipeOutcome = .ok g →
      findChar ('[' :: pyStrip g) '[' = some s →
      rfindChar ('[' :: pyStrip g) ']' = some ei →
      loads (clean_llm_json ((('[' :: pyStrip g).take (ei + 1)).drop s)) = .ok j →
      (∀ items, j ≠ Json.arr items) →
      extract_use_cases_single_stage pipeOutcome loads o fb text memory_context muc =
        .ok (extract_with_smart_fallback fb text)) ∧
    (∀ g s ei items err, pipeOutcome = .ok g →
      findChar ('[' :: pyStrip g) '[' = some s →
      rfindChar ('[' :: pyStrip g) ']' = some ei →
      loads (clean_llm_json ((('[' :: pyStrip g).take (ei + 1)).drop s)) =
        .ok (Json.arr items) →
      processItems o text 1 items.toList = .error err →
      extract_use_cases_single_stage pipeOutcome loads o fb text memory_context muc =
        .ok (extract_with_smart_fallback fb text)) := by
  refine ⟨?_, ?_, ?_, ?_, ?_, ?_⟩
  · unfold extract_use_cases_single_stage
    cases pipeOutcome with
    | error e => exact ⟨_, rfl⟩
    | ok g =>
      dsimp only
      rcases hf : findChar ('[' :: pyStrip g) '[' with _ | s <;>
        rcases hr : rfindChar ('[' :: pyStrip g) ']' with _ | ei <;>
          simp only [hf, hr]
      · exact ⟨_, rfl⟩
      · exact ⟨_, rfl⟩
      · exact ⟨_, rfl⟩
      · rcases hl : loads (clean_llm_json ((('[' :: pyStrip g).take (ei + 1)).drop s))
          with err | j <;> simp only [hl]
        · exact ⟨_, rfl⟩
        · match j with
          | Json.null => exact ⟨_, rfl⟩
          | Json.bool b => exact ⟨_, rfl⟩
          | Json.num n => exact ⟨_, rfl⟩
          | Json.str st => exact ⟨_, rfl⟩
          | Json.obj kvs => exact ⟨_, rfl⟩
          | Json.arr items =>
            rcases hp : processItems o text 1 items.toList with perr | ucs <;>
              simp only [hp]
            · exact ⟨_, rfl⟩
            · exact ⟨_, rfl⟩
  · intro e he
    subst he
    rfl
  · intro g hg hr
    subst hg
    unfold extract_use_cases_single_stage
    dsimp only
    rw [hr]
    rcases hf : findChar ('[' :: pyStrip g) '[' with _ | s <;> simp only [hf]
  · intro g s ei err hg hf hr hl
    subst hg
    unfold extract_use_cases_single_stage
    dsimp only
    rw [hf, hr]
    simp only [hl]
  · intro g s ei j hg hf hr hl hnl
    subst hg
    unfold extract_use_cases_single_stage
    dsimp only
    rw [hf, hr]
    simp only [hl]
  · intro g s ei items err hg hf hr hl hp
    subst hg
    unfold extract_use_cases_single_stage
    dsimp only
    rw [hf, hr]
    simp only [hl, hp]

/-- Concrete oracle instances used to exercise the C1 theorem: a regex
engine finding nothing, a fallback pattern matcher finding nothing, and
a `json.loads` that always fails. -/
def c1Oracles : RegexOracles :=
  { optFind := fun _ _ => []
    errFind2 := fun _ => []
    errFind1 := fun _ _ => []
    errFind0 := fun _ => 0 }

def c1Fb : FbOracle := fun _ _ _ => []

def c1Loads : Str → Except Str Json := fun _ => .error (S "bad json")

/-- C1 witness: when the LLM pipeline call raises (here, the error
"boom"), the single-stage extractor returns exactly the fallback
extractor's result, instantiated at concrete inputs. -/
theorem C1_witness :
    extract_use_cases_single_stage (.error (S "boom")) c1Loads c1Oracles c1Fb
        (S "short text") (S "") none =
      .ok (extract_with_smart_fallback c1Fb (S "short text")) :=
  (C1_single_stage_total_with_fallback (.error (S "boom")) c1Loads c1Oracles c1Fb
      (S "short text") (S "") none).2.1 (S "boom") rfl
